import Mathlib

/-!
# turbostress: the load ramp and the turbostat parser

A shallow embedding of `cmd/main.go`.

* Go `int` is a 64-bit two's-complement integer: `Int` with `wrapInt` after the
  one addition of the program (`load += input.loadStep`).
* `float64` and the three library calls on it (`strconv.ParseFloat`,
  `strconv.FormatFloat`, the conversion `float64(n)`) are the fields of
  `Float64Ops`; every theorem holds for every such structure.
* The outside world (the `stress-ng` and `turbostat` processes, the writers) is an
  oracle: `LevelEnv` holds what one iteration of the loop of `stress` observes and
  `World` one such oracle per phase.  What the program does to the outside world
  is recorded as a list of `Event`s.
* The `for` loop of `stress` has no bound in the source: `stressLoop` takes fuel
  and answers `Outcome.running` when the fuel is used up.
* Left out: the log lines of `logrus`, the command line of `main`, `cpuInfo`, and
  the lengths of the waits (only which branch of a `select` is taken matters).
-/

namespace Turbostress

/-! ## Values -/

/-- Go `int` on a 64-bit target: the result of an addition wraps around. -/
def wrapInt (x : Int) : Int := (x + 2 ^ 63) % 2 ^ 64 - 2 ^ 63

/-- The largest Go `int`. -/
def maxInt : Int := 2 ^ 63 - 1

/-- The `error` values the program can return. -/
inductive Error where
  /-- an error handed back by the operating system (`cmd.Start`, `cmd.Wait`, `Write`) -/
  | external (msg : String)
  /-- `goneErr`: "stress-ng gone before end of measures, see stress-ng output for details" -/
  | gone
  /-- "stress-ng was not terminated by a signal, EC: %d, err: %v" -/
  | notSignalled (ec : Int) (waitErr : Option String)
  /-- the error of `strconv.ParseFloat` on a field -/
  | numError (field : String)
  /-- "could not parse turbostat output: %s" -/
  | couldNotParse (output : String)
  deriving DecidableEq, Repr

/-- How a call ends: it returns a value, returns an error, panics at run time
(index out of range), or is still in its loop when the fuel is used up. -/
inductive Outcome (α : Type) where
  | ok (a : α)
  | error (e : Error)
  | panic
  | running
  deriving DecidableEq, Repr

/-- The `float64` operations the program uses. -/
structure Float64Ops (F : Type) where
  /-- the zero value `0.0` of `make([]float64, n)` and of a missing map key -/
  zero : F
  /-- `a + b` -/
  add : F → F → F
  /-- `a / b` -/
  div : F → F → F
  /-- `float64(n)` -/
  ofInt : Int → F
  /-- `strconv.ParseFloat(s, 64)`; `none` when it returns an error -/
  parseFloat : String → Option F
  /-- `strconv.FormatFloat(m, 'f', 2, 64)` -/
  formatFloat : F → String

/-- The two writers of the program: the `output` argument of `bench` and `os.Stdout`. -/
inductive Sink where
  | output
  | stdout
  deriving DecidableEq, Repr

/-- What the program does to the outside world, in order. -/
inductive Event where
  /-- `stressFn(load, threads)`: `stress-ng` is started with these arguments -/
  | spawn (load threads : Int) (args : List String)
  /-- a receive from `done` succeeded: the load process was seen to have ended -/
  | gone (load : Int)
  /-- `turboStat(input.metrics, ...)` is called for measure `i` -/
  | sample (load : Int) (i : Nat)
  /-- `stress.Process.Kill()` -/
  | kill (load : Int)
  /-- `err = <-done` after the kill, with the exit code then read -/
  | reap (load : Int) (ec : Int)
  /-- `writer.Write` is called with these bytes -/
  | write (sink : Sink) (line : String)
  deriving DecidableEq, Repr

/-- The struct `benchInput`; durations are in nanoseconds. -/
structure benchInput where
  loadStep : Int
  threads : Int
  loadDurationBeforeMeasures : Int
  metrics : List String
  repeat_ : Int
  durationBetweenMeasures : Int
  initialLoad : Int
  method : String
  cpuInfo : Bool
  ipsec : Bool
  vm : Bool
  maximize : Bool

/-- What one iteration of the loop of `stress` observes of the outside world. -/
structure LevelEnv where
  /-- the error of `stressFn`, if any -/
  spawnErr : Option Error
  /-- the first `select` receives from `done` before the ticker fires -/
  goneInSettle : Bool
  /-- the `select` before measure `i` receives from `done` -/
  goneBefore : Nat → Bool
  /-- the run of `turbostat` for measure `i`: the error of `Start` or `Wait`, or its standard output -/
  turbo : Nat → Except Error String
  /-- `stress.ProcessState.ExitCode()` after the kill -/
  exitCode : Int
  /-- the error of `stress.Wait()`, as text -/
  waitErr : Option String
  /-- the error of the write of the row, if any -/
  writeErr : Option Error

/-- The outside world of one run of `bench`. -/
structure World where
  /-- the error of the write of the header, if any -/
  headerErr : Option Error
  cpu : Nat → LevelEnv
  ipsec : Nat → LevelEnv
  vm : Nat → LevelEnv
  maximize : Nat → LevelEnv

/-- The events of the teardown of a level and of its row: the kill, the reaping
and the writes. -/
def Event.isTeardown : Event → Bool
  | Event.kill _ => true
  | Event.reap _ _ => true
  | Event.write _ _ => true
  | _ => false

/-- The load levels at which `stress-ng` is started, in order. -/
def spawnLoads : List Event → List Int
  | [] => []
  | Event.spawn load _ _ :: t => load :: spawnLoads t
  | _ :: t => spawnLoads t

/-- The writes of a trace, in order. -/
def writes : List Event → List Event
  | [] => []
  | Event.write sink line :: t => Event.write sink line :: writes t
  | _ :: t => writes t

/-! ## Strings -/

/-- `strings.Split` on a list of characters, for a separator of one character. -/
def splitChars (sep : Char) : List Char → List (List Char)
  | [] => [[]]
  | c :: cs =>
    if c = sep then [] :: splitChars sep cs
    else
      match splitChars sep cs with
      | [] => [[c]]
      | h :: t => (c :: h) :: t

/-- `strings.Split(s, sep)` for a separator of one character. -/
def stringsSplit (s : String) (sep : Char) : List String :=
  (splitChars sep s.data).map String.mk

/-- `fmt.Sprintf("%d", n)`. -/
def sprintInt (n : Int) : String := toString n

/-- The bytes `write` hands to its writer: `strings.Join(data, ",") + "\n"`. -/
def writeLine (data : List String) : String := String.intercalate "," data ++ "\n"

/-- `write(data, writer)`: one call of `writer.Write`. -/
def write (data : List String) (sink : Sink) (err : Option Error) : List Event × Outcome Unit :=
  ([Event.write sink (writeLine data)],
    match err with
    | some e => Outcome.error e
    | none => Outcome.ok ())

/-! ## turboStat -/

/-- The `names` of `turboStat`: `strings.Split(lines[0], "\t")`. -/
def headerFields (output : String) : List String :=
  stringsSplit ((stringsSplit output '\n').getD 0 "") '\t'

/-- The `values` of `turboStat`: `strings.Split(lines[1], "\t")`. -/
def valueFields (output : String) : List String :=
  stringsSplit ((stringsSplit output '\n').getD 1 "") '\t'

section
variable {F : Type} (ops : Float64Ops F)

/-- `results[key] = f` on a `map[string]float64`, seen as its lookup function. -/
def mapSet (m : String → F) (key : String) (f : F) : String → F :=
  fun k => if k = key then f else m k

/-- The map after the assignments `results[p.1] = p.2` for the pairs of a list, in order. -/
def setAll (m : String → F) (pairs : List (String × F)) : String → F :=
  pairs.foldl (fun acc p => mapSet acc p.1 p.2) m

/-- The loop `for index, value := range values` of `turboStat`, from position `index`. -/
def fillResults (names : List String) : Nat → List String → (String → F) → Outcome (String → F)
  | _, [], m => Outcome.ok m
  | index, value :: rest, m =>
    match ops.parseFloat value with
    | none => Outcome.error (Error.numError value)
    | some f =>
      match names[index]? with
      | none => Outcome.panic
      | some name => fillResults names (index + 1) rest (mapSet m name f)

/-- The part of `turboStat` after the process has ended: from its standard output
to the values of the requested columns. -/
def parseOutput (stats : List String) (output : String) : Outcome (List F) :=
  let lines := stringsSplit output '\n'
  if 2 ≤ lines.length then
    let names := headerFields output
    let values := valueFields output
    match fillResults ops names 0 values (fun _ => ops.zero) with
    | Outcome.ok results => Outcome.ok (stats.map results)
    | Outcome.error e => Outcome.error e
    | Outcome.panic => Outcome.panic
    | Outcome.running => Outcome.running
  else Outcome.error (Error.couldNotParse output)

/-- `turboStat(stats, d)`: `run` is what the `turbostat` process did. -/
def turboStat (stats : List String) (run : Except Error String) : Outcome (List F) :=
  match run with
  | Except.error e => Outcome.error e
  | Except.ok output => parseOutput ops stats output

/-! ## stress -/

/-- The loop `for index, value := range stats { sums[index] += value }`;
`none` is the panic of an index beyond `sums`. -/
def addInto : List F → List F → Option (List F)
  | sums, [] => some sums
  | [], _ :: _ => none
  | s :: sums, v :: stats => (addInto sums stats).map (fun r => ops.add s v :: r)

/-- The loop `for i := 0; i < input.repeat; i++` of `stress`: `n` measures are left,
the next one is measure `i`. -/
def sampleLoop (env : LevelEnv) (metrics : List String) (load : Int) :
    Nat → Nat → List F → List Event × Outcome (List F)
  | 0, _, sums => ([], Outcome.ok sums)
  | n + 1, i, sums =>
    if env.goneBefore i then ([Event.gone load], Outcome.error Error.gone)
    else
      match turboStat ops metrics (env.turbo i) with
      | Outcome.ok stats =>
        match addInto ops sums stats with
        | none => ([Event.sample load i], Outcome.panic)
        | some sums' =>
          let r := sampleLoop env metrics load n (i + 1) sums'
          (Event.sample load i :: r.1, r.2)
      | Outcome.error e => ([Event.sample load i], Outcome.error e)
      | Outcome.panic => ([Event.sample load i], Outcome.panic)
      | Outcome.running => ([Event.sample load i], Outcome.running)

/-- The sum, metric by metric, of the first `n` lists of samples: entry `j` is
`0 + samples 0 [j] + ... + samples (n-1) [j]`, added in this order. -/
def colSums (m : Nat) (samples : Nat → List F) (n : Nat) : List F :=
  (List.range m).map (fun j =>
    ((List.range n).map (fun i => (samples i).getD j ops.zero)).foldl ops.add ops.zero)

/-- The row of one level: the argument of `write` in `stress`. -/
def rowData (input : benchInput) (name : String) (load : Int) (sums : List F) : List String :=
  [name, sprintInt input.threads, sprintInt load] ++
    (sums.map (fun s => ops.div s (ops.ofInt input.repeat_))).map ops.formatFloat

/-- The events of a load level that runs to its row: the start, `n` measures, the
kill, the reaping with exit code -1, the write of the row. -/
def levelBlock (input : benchInput) (name : String) (stressFn : Int → Int → List String)
    (load : Int) (n : Nat) (sums : List F) : List Event :=
  Event.spawn load input.threads (stressFn load input.threads) ::
    (List.range n).map (Event.sample load) ++
      [Event.kill load, Event.reap load (-1),
        Event.write Sink.stdout (writeLine (rowData ops input name load sums))]

/-- Nothing fails at this level: `stress-ng` starts and outlives the settle wait
and the measures, every run of `turbostat` is parsed, the kill ends the process
by a signal and the row is written. -/
def Calm (env : LevelEnv) (input : benchInput) : Prop :=
  env.spawnErr = none ∧ env.goneInSettle = false ∧
    (∀ i, i < input.repeat_.toNat → env.goneBefore i = false ∧
      ∃ r, turboStat ops input.metrics (env.turbo i) = Outcome.ok r) ∧
    env.exitCode = -1 ∧ env.writeErr = none

/-- The body of the loop of `stress` at one load level, up to and with the write
of the row. -/
def stressLevel (env : LevelEnv) (input : benchInput) (name : String)
    (stressFn : Int → Int → List String) (load : Int) : List Event × Outcome Unit :=
  let spawn := Event.spawn load input.threads (stressFn load input.threads)
  match env.spawnErr with
  | some e => ([spawn], Outcome.error e)
  | none =>
    if env.goneInSettle then ([spawn, Event.gone load], Outcome.error Error.gone)
    else
      match sampleLoop ops env input.metrics load input.repeat_.toNat 0
          (List.replicate input.metrics.length ops.zero) with
      | (t, Outcome.ok sums) =>
        if env.exitCode ≠ -1 then
          (spawn :: t ++ [Event.kill load, Event.reap load env.exitCode],
            Outcome.error (Error.notSignalled env.exitCode env.waitErr))
        else
          let w := write (rowData ops input name load sums) Sink.stdout env.writeErr
          (spawn :: t ++ [Event.kill load, Event.reap load env.exitCode] ++ w.1, w.2)
      | (t, Outcome.error e) => (spawn :: t, Outcome.error e)
      | (t, Outcome.panic) => (spawn :: t, Outcome.panic)
      | (t, Outcome.running) => (spawn :: t, Outcome.running)

/-- The loop of `stress`, entered for the `k`-th time with `load`. -/
def stressLoop (w : Nat → LevelEnv) (input : benchInput) (name : String)
    (stressFn : Int → Int → List String) : Nat → Nat → Int → List Event × Outcome Unit
  | 0, _, _ => ([], Outcome.running)
  | fuel + 1, k, load =>
    match stressLevel ops (w k) input name stressFn load with
    | (t, Outcome.ok _) =>
      if load = 100 then (t, Outcome.ok ())
      else
        let next := wrapInt (load + input.loadStep)
        let r := stressLoop w input name stressFn fuel (k + 1) (if next > 100 then 100 else next)
        (t ++ r.1, r.2)
    | (t, r) => (t, r)

/-- `stress(input, name, stressFn)`. -/
def stress (w : Nat → LevelEnv) (input : benchInput) (name : String)
    (stressFn : Int → Int → List String) (fuel : Nat) : List Event × Outcome Unit :=
  stressLoop ops w input name stressFn fuel 0 input.initialLoad

/-- The arguments of `stress-ng` in `stressNGCPUStress`. -/
def stressNGCPUStress (load threads : Int) (method : String) : List String :=
  ["-l", sprintInt load, "-c", sprintInt threads, "--cpu-method", method]

/-- The arguments of `stress-ng` in `stressNGIPSec`. -/
def stressNGIPSec (threads : Int) : List String := ["--ipsec-mb", sprintInt threads]

/-- The arguments of `stress-ng` in `stressNGVMStress`. -/
def stressNGVMStress (threads : Int) : List String := ["--vm", sprintInt threads]

/-- The arguments of `stress-ng` in `stressNGMAximize`. -/
def stressNGMAximize (threads : Int) : List String :=
  ["--cpu", sprintInt threads, "--vm", sprintInt threads, "--maximize"]

/-- `cpuStress(input)`. -/
def cpuStress (w : Nat → LevelEnv) (input : benchInput) (fuel : Nat) : List Event × Outcome Unit :=
  stress ops w input "CPUStress" (fun load threads => stressNGCPUStress load threads input.method) fuel

/-- `vmStress(input)`. -/
def vmStress (w : Nat → LevelEnv) (input : benchInput) (fuel : Nat) : List Event × Outcome Unit :=
  stress ops w input "VMStress" (fun _ threads => stressNGVMStress threads) fuel

/-- `ipsecStress(input)`. -/
def ipsecStress (w : Nat → LevelEnv) (input : benchInput) (fuel : Nat) : List Event × Outcome Unit :=
  stress ops w input "ipsec" (fun _ threads => stressNGIPSec threads) fuel

/-- `maximizeStress(input)`. -/
def maximizeStress (w : Nat → LevelEnv) (input : benchInput) (fuel : Nat) :
    List Event × Outcome Unit :=
  stress ops w input "maximize" (fun _ threads => stressNGMAximize threads) fuel

/-! ## bench -/

/-- The tail of `bench` from `if input.maximize` on. -/
def benchMaximize (w : World) (input : benchInput) (fuel : Nat) : List Event × Outcome Unit :=
  if input.maximize then maximizeStress ops w.maximize input fuel
  else ([], Outcome.ok ())

/-- The tail of `bench` from `if input.vm` on. -/
def benchVM (w : World) (input : benchInput) (fuel : Nat) : List Event × Outcome Unit :=
  if input.vm then
    match vmStress ops w.vm input fuel with
    | (t, Outcome.ok _) =>
      let r := benchMaximize ops w input fuel
      (t ++ r.1, r.2)
    | (t, r) => (t, r)
  else benchMaximize ops w input fuel

/-- The tail of `bench` from `if input.ipsec` on; the assignment
`input.initialLoad = 100` is inside that `if`. -/
def benchIPSec (w : World) (input : benchInput) (fuel : Nat) : List Event × Outcome Unit :=
  if input.ipsec then
    let input' := { input with initialLoad := 100 }
    match ipsecStress ops w.ipsec input' fuel with
    | (t, Outcome.ok _) =>
      let r := benchVM ops w input' fuel
      (t ++ r.1, r.2)
    | (t, r) => (t, r)
  else benchVM ops w input fuel

/-- `bench(input, output)`. -/
def bench (w : World) (input : benchInput) (fuel : Nat) : List Event × Outcome Unit :=
  match write (["test", "threads", "load"] ++ input.metrics) Sink.output w.headerErr with
  | (t0, Outcome.ok _) =>
    match cpuStress ops w.cpu input fuel with
    | (t1, Outcome.ok _) =>
      let r := benchIPSec ops w input fuel
      (t0 ++ t1 ++ r.1, r.2)
    | (t1, r) => (t0 ++ t1, r)
  | (t0, r) => (t0, r)

end

/-- The order of the steps of a run in the words of the specification: the steps
run one after the other, and the first step that does not return without an
error ends the run; its outcome is the outcome of the run and no later step
starts. -/
def runInOrder : List (List Event × Outcome Unit) → List Event × Outcome Unit
  | [] => ([], Outcome.ok ())
  | p :: ps =>
    match p.2 with
    | Outcome.ok _ => (p.1 ++ (runInOrder ps).1, (runInOrder ps).2)
    | r => (p.1, r)

/-! ## A concrete arithmetic

Decimal fixed point in hundredths, to evaluate the definitions at concrete
inputs. -/

/-- The value of a decimal digit. -/
def digitVal (c : Char) : Option Nat :=
  if 48 ≤ c.toNat ∧ c.toNat ≤ 57 then some (c.toNat - 48) else none

/-- A run of decimal digits read as a number, continuing from `acc`. -/
def readDigits : List Char → Nat → Option Nat
  | [], acc => some acc
  | c :: cs, acc =>
    match digitVal c with
    | none => none
    | some d => readDigits cs (acc * 10 + d)

/-- An unsigned decimal `ddd`, `ddd.d` or `ddd.dd`, in hundredths. -/
def readCenti (cs : List Char) : Option Int :=
  match splitChars '.' cs with
  | [ip] => if ip = [] then none else (readDigits ip 0).map (fun n => (n : Int) * 100)
  | [ip, fp] =>
    if ip = [] then none
    else
      match readDigits ip 0, fp with
      | some n, [a] => (digitVal a).map (fun d => (n : Int) * 100 + d * 10)
      | some n, [a, b] =>
        match digitVal a, digitVal b with
        | some d, some e => some ((n : Int) * 100 + d * 10 + e)
        | _, _ => none
      | _, _ => none
  | _ => none

/-- A number of hundredths in fixed notation with two decimals. -/
def showCenti (c : Int) : String :=
  (if c < 0 then "-" else "") ++ toString (c.natAbs / 100) ++ "." ++
    toString (c.natAbs % 100 / 10) ++ toString (c.natAbs % 10)

/-- The quotient of two numbers of hundredths, to the nearest hundredth (ties to even). -/
def divCenti (a b : Int) : Int :=
  if b = 0 then 0
  else
    let n := a * 100 * b.sign
    let d := b.natAbs
    let q := n / d
    let r := n % d
    if 2 * r > d ∨ (2 * r = d ∧ q % 2 = 1) then q + 1 else q

/-- Decimal fixed-point arithmetic in hundredths. -/
def centiOps : Float64Ops Int where
  zero := 0
  add := fun a b => a + b
  div := divCenti
  ofInt := fun n => n * 100
  parseFloat := fun s =>
    match s.data with
    | '-' :: cs => (readCenti cs).map (fun c => -c)
    | cs => readCenti cs
  formatFloat := showCenti

/-- A level at which nothing fails: the load process outlives the measures, every
run of `turbostat` prints `out i`, the kill ends the process by a signal. -/
def calmEnv (out : Nat → String) : LevelEnv where
  spawnErr := none
  goneInSettle := false
  goneBefore := fun _ => false
  turbo := fun i => Except.ok (out i)
  exitCode := -1
  waitErr := none
  writeErr := none

/-- A world in which nothing fails and `turbostat` always prints `out`. -/
def calmWorld (out : String) : World where
  headerErr := none
  cpu := fun _ => calmEnv (fun _ => out)
  ipsec := fun _ => calmEnv (fun _ => out)
  vm := fun _ => calmEnv (fun _ => out)
  maximize := fun _ => calmEnv (fun _ => out)

/-- The default configuration of `main` with four threads, two metrics and a
step of 50. -/
def sampleInput : benchInput where
  loadStep := 50
  threads := 4
  loadDurationBeforeMeasures := 5000000000
  metrics := ["PkgWatt", "PkgTmp"]
  repeat_ := 2
  durationBetweenMeasures := 1000000000
  initialLoad := 0
  method := "all"
  cpuInfo := true
  ipsec := true
  vm := true
  maximize := true

/-- A phase in which the load process ends during the first settle wait. -/
def goneWorld : Nat → LevelEnv := fun _ =>
  { calmEnv (fun _ => "PkgWatt\tPkgTmp\n30\t50\n") with goneInSettle := true }

/-- A phase in which every run of `turbostat` ends with an error. -/
def failingSampler : Nat → LevelEnv := fun _ =>
  { calmEnv (fun _ => "") with turbo := fun _ => Except.error (Error.external "exit status 1") }

/-- A phase in which nothing fails and `turbostat` prints 30 and 50. -/
def calmPhase : Nat → LevelEnv := fun _ => calmEnv (fun _ => "PkgWatt\tPkgTmp\n30\t50\n")

/-- A ramp from 1 with the largest step a Go `int` can hold. -/
def wrappingInput : benchInput :=
  { sampleInput with initialLoad := 1, loadStep := 9223372036854775807 }

/-- Three measures of one metric: 10.0, 20.0 and 30.0. -/
def meanInput : benchInput :=
  { sampleInput with metrics := ["PkgWatt"], repeat_ := 3 }

/-- A phase in which `turbostat` prints 10.0, then 20.0, then 30.0. -/
def meanPhase : Nat → LevelEnv := fun _ =>
  calmEnv (fun i => if i = 0 then "PkgWatt\n10.0\n" else if i = 1 then "PkgWatt\n20.0\n"
    else "PkgWatt\n30.0\n")

/-- The default configuration with a step of 50, without the ipsec and the
maximize phases. -/
def noIPSecInput : benchInput :=
  { sampleInput with ipsec := false, maximize := false }

/-! ## Lemmas -/

section
variable {F : Type} (ops : Float64Ops F)

theorem mapSet_self (m : String → F) (k : String) (f : F) : mapSet m k f k = f := by
  simp [mapSet]

theorem mapSet_of_ne (m : String → F) (k k' : String) (f : F) (h : k' ≠ k) :
    mapSet m k f k' = m k' := by
  simp [mapSet, h]

/-- When `fillResults` returns a map, every field is numeric, the header is long
enough, and the map is the result of the assignments in order. -/
theorem fillResults_ok (names : List String) :
    ∀ (values : List String) (index : Nat) (m m' : String → F),
      fillResults ops names index values m = Outcome.ok m' →
      index + values.length ≤ max index names.length ∧
      (∀ v ∈ values, ∃ f, ops.parseFloat v = some f) ∧
      m' = setAll m (List.zip (names.drop index)
        (values.map (fun v => (ops.parseFloat v).getD ops.zero))) := by
  intro values
  induction values with
  | nil =>
    intro index m m' h
    simp [fillResults] at h
    simp [setAll, h]
  | cons v rest ih =>
    intro index m m' h
    unfold fillResults at h
    cases hp : ops.parseFloat v with
    | none => simp [hp] at h
    | some f =>
      simp only [hp] at h
      cases hn : names[index]? with
      | none => simp [hn] at h
      | some name =>
        simp only [hn] at h
        obtain ⟨h1, h2, h3⟩ := ih (index + 1) _ _ h
        have hlt : index < names.length := by
          by_contra hc
          rw [List.getElem?_eq_none (by omega)] at hn
          cases hn
        refine ⟨?_, ?_, ?_⟩
        · simp only [List.length_cons]
          omega
        · intro v' hv'
          rcases List.mem_cons.mp hv' with rfl | hv'
          · exact ⟨f, hp⟩
          · exact h2 v' hv'
        · have hd : names.drop index = name :: names.drop (index + 1) := by
            rw [List.drop_eq_getElem_cons hlt]
            congr 1
            rw [List.getElem?_eq_getElem hlt] at hn
            exact Option.some.inj hn
          rw [h3, hd]
          simp [setAll, hp]

/-- When every field is numeric and the header is long enough, `fillResults`
returns the map of the assignments in order. -/
theorem fillResults_of_numeric (names : List String) :
    ∀ (values : List String) (index : Nat) (m : String → F),
      index + values.length ≤ names.length →
      (∀ v ∈ values, ∃ f, ops.parseFloat v = some f) →
      fillResults ops names index values m = Outcome.ok (setAll m (List.zip (names.drop index)
        (values.map (fun v => (ops.parseFloat v).getD ops.zero)))) := by
  intro values
  induction values with
  | nil =>
    intro index m _ _
    simp [fillResults, setAll]
  | cons v rest ih =>
    intro index m hlen hnum
    obtain ⟨f, hp⟩ := hnum v (List.mem_cons_self _ _)
    simp only [List.length_cons] at hlen
    have hlt : index < names.length := by omega
    unfold fillResults
    simp only [hp, List.getElem?_eq_getElem hlt]
    rw [ih (index + 1) _ (by omega) (fun v' hv' => hnum v' (List.mem_cons_of_mem _ hv'))]
    rw [List.drop_eq_getElem_cons hlt]
    simp only [setAll, List.map_cons, hp, Option.getD_some, List.zip_cons_cons, List.foldl_cons]

theorem setAll_cons (m : String → F) (p : String × F) (ps : List (String × F)) :
    setAll m (p :: ps) = setAll (mapSet m p.1 p.2) ps := rfl

/-- A key that is assigned nowhere keeps its value. -/
theorem setAll_of_not_mem (pairs : List (String × F)) :
    ∀ (m : String → F) (k : String), k ∉ pairs.map Prod.fst → setAll m pairs k = m k := by
  induction pairs with
  | nil => intro m k _; rfl
  | cons p ps ih =>
    intro m k hk
    simp only [List.map_cons, List.mem_cons, not_or] at hk
    rw [setAll_cons, ih _ _ hk.2, mapSet_of_ne _ _ _ _ hk.1]

/-- A key that is assigned somewhere has the value of its last assignment. -/
theorem setAll_of_mem (pairs : List (String × F)) :
    ∀ (m : String → F) (k : String), k ∈ pairs.map Prod.fst →
      ∃ pre f post, pairs = pre ++ (k, f) :: post ∧ k ∉ post.map Prod.fst ∧
        setAll m pairs k = f := by
  induction pairs with
  | nil => intro m k hk; simp at hk
  | cons p ps ih =>
    intro m k hk
    by_cases hps : k ∈ ps.map Prod.fst
    · obtain ⟨pre, f, post, h1, h2, h3⟩ := ih (mapSet m p.1 p.2) k hps
      exact ⟨p :: pre, f, post, by rw [h1]; rfl, h2, by rw [setAll_cons, h3]⟩
    · have hk1 : k = p.1 := by
        simp only [List.map_cons, List.mem_cons] at hk
        rcases hk with h | h
        · exact h
        · exact absurd h hps
      refine ⟨[], p.2, ps, ?_, hps, ?_⟩
      · subst hk1; rfl
      · rw [setAll_cons, setAll_of_not_mem _ _ _ hps, hk1, mapSet_self]

/-- With distinct keys, a key has the value it is paired with. -/
theorem setAll_of_mem_nodup (pairs : List (String × F)) (m : String → F) (k : String) (f : F)
    (hnd : (pairs.map Prod.fst).Nodup) (hmem : (k, f) ∈ pairs) : setAll m pairs k = f := by
  have hk : k ∈ pairs.map Prod.fst := List.mem_map.mpr ⟨(k, f), hmem, rfl⟩
  obtain ⟨pre, f', post, h1, h2, h3⟩ := setAll_of_mem pairs m k hk
  rw [h3]
  rw [h1] at hnd hmem
  rcases List.mem_append.mp hmem with h | h
  · exfalso
    rw [List.map_append, List.nodup_append] at hnd
    exact hnd.2.2 (List.mem_map.mpr ⟨(k, f), h, rfl⟩) (by simp)
  · rcases List.mem_cons.mp h with h | h
    · exact (Prod.mk.inj h).2.symm
    · exact absurd (List.mem_map.mpr ⟨(k, f), h, rfl⟩) h2

/-- With distinct keys, the order of the assignments does not matter. -/
theorem setAll_perm (pairs pairs' : List (String × F)) (m : String → F)
    (hnd : (pairs.map Prod.fst).Nodup) (hp : pairs'.Perm pairs) (k : String) :
    setAll m pairs' k = setAll m pairs k := by
  have hnd' : (pairs'.map Prod.fst).Nodup := ((hp.map Prod.fst).nodup_iff).mpr hnd
  by_cases hk : k ∈ pairs.map Prod.fst
  · obtain ⟨⟨k', f⟩, hmem, hkk⟩ := List.mem_map.mp hk
    simp only at hkk
    subst hkk
    rw [setAll_of_mem_nodup pairs m k' f hnd hmem,
      setAll_of_mem_nodup pairs' m k' f hnd' (hp.mem_iff.mpr hmem)]
  · have hk' : k ∉ pairs'.map Prod.fst := fun h => hk ((hp.map Prod.fst).mem_iff.mp h)
    rw [setAll_of_not_mem _ _ _ hk, setAll_of_not_mem _ _ _ hk']

theorem fillResults_ne_running (names : List String) :
    ∀ (values : List String) (index : Nat) (m : String → F),
      fillResults ops names index values m ≠ Outcome.running := by
  intro values
  induction values with
  | nil => intro index m; simp [fillResults]
  | cons v rest ih =>
    intro index m
    unfold fillResults
    cases ops.parseFloat v with
    | none => simp
    | some f =>
      cases names[index]? with
      | none => simp
      | some name => exact ih _ _

/-- The loop panics exactly when the value line is longer than what is left of
the header and every field up to the first one beyond it is numeric. -/
theorem fillResults_panic_iff (names : List String) :
    ∀ (values : List String) (index : Nat) (m : String → F), index ≤ names.length →
      (fillResults ops names index values m = Outcome.panic ↔
        names.length - index < values.length ∧
          ∀ j, j ≤ names.length - index → ∃ v f, values[j]? = some v ∧ ops.parseFloat v = some f) := by
  intro values
  induction values with
  | nil =>
    intro index m _
    simp [fillResults]
  | cons v rest ih =>
    intro index m hle
    unfold fillResults
    cases hp : ops.parseFloat v with
    | none =>
      simp only [false_iff, not_and, reduceCtorEq]
      intro _ hall
      obtain ⟨v', f, hv', hf⟩ := hall 0 (Nat.zero_le _)
      simp only [List.getElem?_cons_zero, Option.some.injEq] at hv'
      subst hv'
      rw [hp] at hf
      cases hf
    | some f =>
      cases hn : names[index]? with
      | none =>
        have hidx : names.length - index = 0 := by
          by_contra hc
          rw [List.getElem?_eq_getElem (by omega)] at hn
          cases hn
        simp only [true_iff, hidx, List.length_cons, Nat.le_zero_eq]
        refine ⟨by omega, ?_⟩
        intro j hj
        subst hj
        exact ⟨v, f, by simp, hp⟩
      | some name =>
        have hlt : index < names.length := by
          by_contra hc
          rw [List.getElem?_eq_none (by omega)] at hn
          cases hn
        simp only
        rw [ih (index + 1) _ (by omega)]
        simp only [List.length_cons]
        constructor
        · rintro ⟨h1, h2⟩
          refine ⟨by omega, ?_⟩
          intro j hj
          cases j with
          | zero => exact ⟨v, f, by simp, hp⟩
          | succ j =>
            obtain ⟨v', f', hv', hf'⟩ := h2 j (by omega)
            exact ⟨v', f', by simpa using hv', hf'⟩
        · rintro ⟨h1, h2⟩
          refine ⟨by omega, ?_⟩
          intro j hj
          obtain ⟨v', f', hv', hf'⟩ := h2 (j + 1) (by omega)
          exact ⟨v', f', by simpa using hv', hf'⟩

end
section
variable {F : Type} (ops : Float64Ops F)

theorem map_fst_zip_sublist {α β : Type} : ∀ (l₁ : List α) (l₂ : List β),
    List.Sublist ((List.zip l₁ l₂).map Prod.fst) l₁
  | [], _ => by simp
  | _ :: _, [] => by simp
  | a :: l₁, b :: l₂ => by
    simp only [List.zip_cons_cons, List.map_cons]
    exact (map_fst_zip_sublist l₁ l₂).cons₂ a

theorem exists_mem_zip_of_mem_right {α β : Type} (l₁ : List α) (l₂ : List β) (b : β)
    (hlen : l₂.length ≤ l₁.length) (hb : b ∈ l₂) : ∃ a, (a, b) ∈ List.zip l₁ l₂ := by
  obtain ⟨j, hj⟩ := List.mem_iff_getElem?.mp hb
  obtain ⟨hlt, hget⟩ := List.getElem?_eq_some.mp hj
  have hlt1 : j < l₁.length := by omega
  refine ⟨l₁[j], List.mem_iff_getElem?.mpr ⟨j, ?_⟩⟩
  rw [List.getElem?_zip_eq_some]
  exact ⟨List.getElem?_eq_getElem hlt1, hj⟩

/-- The value `parseOutput` returns, opened up. -/
theorem parseOutput_ok (stats : List String) (output : String) (ret : List F)
    (h : parseOutput ops stats output = Outcome.ok ret) :
    2 ≤ (stringsSplit output '\n').length ∧
    (valueFields output).length ≤ (headerFields output).length ∧
    (∀ v ∈ valueFields output, ∃ f, ops.parseFloat v = some f) ∧
    ret = stats.map (setAll (fun _ => ops.zero) (List.zip (headerFields output)
      ((valueFields output).map (fun v => (ops.parseFloat v).getD ops.zero)))) := by
  unfold parseOutput at h
  simp only at h
  split at h
  · rename_i h2
    refine ⟨h2, ?_⟩
    split at h
    · rename_i results hres
      obtain ⟨h1, h3, h4⟩ := fillResults_ok ops _ _ _ _ _ hres
      simp only [Outcome.ok.injEq] at h
      refine ⟨by simpa using h1, h3, ?_⟩
      rw [← h, h4, List.drop_zero]
    all_goals cases h
  · cases h

/-- The value `parseOutput` returns when the output is well formed. -/
theorem parseOutput_of_numeric (stats : List String) (output : String)
    (h2 : 2 ≤ (stringsSplit output '\n').length)
    (hlen : (valueFields output).length ≤ (headerFields output).length)
    (hnum : ∀ v ∈ valueFields output, ∃ f, ops.parseFloat v = some f) :
    parseOutput ops stats output =
      Outcome.ok (stats.map (setAll (fun _ => ops.zero) (List.zip (headerFields output)
        ((valueFields output).map (fun v => (ops.parseFloat v).getD ops.zero))))) := by
  unfold parseOutput
  simp only [h2, if_true]
  rw [fillResults_of_numeric ops _ _ 0 _ (by simpa using hlen) hnum, List.drop_zero]

end

/-! ## The parser of `turboStat` -/

section
variable {F : Type} (ops : Float64Ops F)

/-- C3, as amended: when `turboStat` parses an output, the list it returns is as
long as `stats`; its `i`-th entry is the number in the last value field whose
header field, at the same position, is `stats[i]`, and `0` when no header field
that has a value field under it is `stats[i]`; and when the header names are
distinct, an output with the same columns in another order gives the same list. -/
theorem turboStat_requested_order (stats : List String) (output : String) (ret : List F)
    (h : turboStat ops stats (Except.ok output) = Outcome.ok ret) :
    ret.length = stats.length ∧
    (∀ (i : Nat) (key : String), stats[i]? = some key →
      (∃ (j : Nat) (v : String) (f : F), (headerFields output)[j]? = some key ∧ (valueFields output)[j]? = some v ∧
          ops.parseFloat v = some f ∧ ret[i]? = some f ∧
          ∀ j' : Nat, j < j' → j' < (valueFields output).length →
            (headerFields output)[j']? ≠ some key) ∨
      ((∀ j : Nat, j < (valueFields output).length → (headerFields output)[j]? ≠ some key) ∧
          ret[i]? = some ops.zero)) ∧
    ((headerFields output).Nodup → ∀ output' : String,
      2 ≤ (stringsSplit output' '\n').length →
      (valueFields output').length ≤ (headerFields output').length →
      ((headerFields output').zip (valueFields output')).Perm
        ((headerFields output).zip (valueFields output)) →
      turboStat ops stats (Except.ok output') = Outcome.ok ret) := by
  have h' : parseOutput ops stats output = Outcome.ok ret := h
  obtain ⟨_, hlen, hnum, hret⟩ := parseOutput_ok ops stats output ret h'
  set names := headerFields output with hnames
  set values := valueFields output with hvalues
  set g : String → F := fun v => (ops.parseFloat v).getD ops.zero with hg
  set pairs := List.zip names (values.map g) with hpairs
  have hpairs_get : ∀ (j : Nat) (k : String) (f : F), pairs[j]? = some (k, f) →
      names[j]? = some k ∧ ∃ v, values[j]? = some v ∧ ops.parseFloat v = some f := by
    intro j k f hj
    rw [hpairs, List.getElem?_zip_eq_some] at hj
    obtain ⟨hj1, hj2⟩ := hj
    refine ⟨hj1, ?_⟩
    simp only [List.getElem?_map, Option.map_eq_some'] at hj2
    obtain ⟨v, hv, hgv⟩ := hj2
    obtain ⟨f', hf'⟩ := hnum v (List.mem_iff_getElem?.mpr ⟨j, hv⟩)
    refine ⟨v, hv, ?_⟩
    rw [hg] at hgv
    simp only [hf', Option.getD_some] at hgv
    rw [hf', hgv]
  have hpairs_key : ∀ (j : Nat) (k : String), j < values.length → names[j]? = some k →
      ∃ f, pairs[j]? = some (k, f) := by
    intro j k hj hk
    refine ⟨g values[j], ?_⟩
    rw [hpairs, List.getElem?_zip_eq_some]
    exact ⟨hk, by simp [List.getElem?_eq_getElem hj]⟩
  refine ⟨by rw [hret, List.length_map], ?_, ?_⟩
  · intro i key hi
    have hreti : ret[i]? = some (setAll (fun _ => ops.zero) pairs key) := by
      rw [hret, List.getElem?_map, hi]
      rfl
    by_cases hk : key ∈ pairs.map Prod.fst
    · left
      obtain ⟨pre, f, post, h1, h2, h3⟩ := setAll_of_mem pairs (fun _ => ops.zero) key hk
      have hj : pairs[pre.length]? = some (key, f) := by
        rw [h1, List.getElem?_append_right (Nat.le_refl _)]
        simp
      obtain ⟨hn, v, hv, hf⟩ := hpairs_get _ _ _ hj
      refine ⟨pre.length, v, f, hn, hv, hf, by rw [hreti, h3], ?_⟩
      intro j' hlt hj' hcontra
      obtain ⟨f', hf'⟩ := hpairs_key j' key hj' hcontra
      rw [h1, List.getElem?_append_right (by omega)] at hf'
      obtain ⟨d, hd⟩ : ∃ d, j' - pre.length = d + 1 := ⟨j' - pre.length - 1, by omega⟩
      rw [hd, List.getElem?_cons_succ] at hf'
      exact h2 (List.mem_map.mpr ⟨(key, f'), List.mem_iff_getElem?.mpr ⟨d, hf'⟩, rfl⟩)
    · right
      refine ⟨?_, by rw [hreti, setAll_of_not_mem _ _ _ hk]⟩
      intro j hj hcontra
      obtain ⟨f, hf⟩ := hpairs_key j key hj hcontra
      exact hk (List.mem_map.mpr ⟨(key, f), List.mem_iff_getElem?.mpr ⟨j, hf⟩, rfl⟩)
  · intro hnd output' h2' hlen' hperm
    have hnum' : ∀ v ∈ valueFields output', ∃ f, ops.parseFloat v = some f := by
      intro v hv
      obtain ⟨a, ha⟩ := exists_mem_zip_of_mem_right _ _ v hlen' hv
      exact hnum v (List.of_mem_zip (hperm.mem_iff.mp ha)).2
    show parseOutput ops stats output' = Outcome.ok ret
    rw [parseOutput_of_numeric ops stats output' h2' hlen' hnum', hret]
    congr 1
    apply List.map_congr_left
    intro k _
    rw [hpairs, List.zip_map_right, List.zip_map_right]
    apply setAll_perm
    · rw [List.map_map]
      have : (Prod.fst ∘ Prod.map id g : String × String → String) = Prod.fst := by
        funext p; rfl
      rw [this]
      exact hnd.sublist (map_fst_zip_sublist _ _)
    · exact hperm.map _

/-- The outcome of `parseOutput` on two lines or more is that of the loop over the value fields. -/
theorem parseOutput_cases (stats : List String) (output : String)
    (h2 : 2 ≤ (stringsSplit output '\n').length) :
    (parseOutput ops stats output = Outcome.panic ↔
      fillResults ops (headerFields output) 0 (valueFields output) (fun _ => ops.zero) =
        Outcome.panic) ∧
    parseOutput ops stats output ≠ Outcome.running := by
  unfold parseOutput
  simp only [h2, if_true]
  have hr := fillResults_ne_running ops (headerFields output) (valueFields output) 0
    (fun _ => ops.zero)
  cases hfill : fillResults ops (headerFields output) 0 (valueFields output) (fun _ => ops.zero) with
  | ok m => simp
  | error e => simp
  | panic => simp
  | running => exact absurd hfill hr

/-- Fewer than two lines: `turboStat` returns its own error and no values. -/
theorem parseOutput_of_one_line (stats : List String) (output : String)
    (h1 : (stringsSplit output '\n').length < 2) :
    parseOutput ops stats output = Outcome.error (Error.couldNotParse output) := by
  unfold parseOutput
  simp only [Nat.not_le.mpr h1, if_false]

/-- C10: on an output of two lines or more, with `h` header fields, `turboStat`
ends in a list of values or in an error exactly when the value line has at most
`h` fields or one of its fields at the positions `0..h` is not numeric; the
lookup `names[index]` goes out of range exactly when the value line has more than
`h` fields and its fields at the positions `0..h` are all numeric. -/
theorem turboStat_index_out_of_range_iff (stats : List String) (output : String)
    (h2 : 2 ≤ (stringsSplit output '\n').length) :
    (((∃ ret, turboStat ops stats (Except.ok output) = Outcome.ok ret) ∨
        (∃ e, turboStat ops stats (Except.ok output) = Outcome.error e)) ↔
      ((valueFields output).length ≤ (headerFields output).length ∨
        ∃ (j : Nat) (v : String), j ≤ (headerFields output).length ∧
          (valueFields output)[j]? = some v ∧ ops.parseFloat v = none)) ∧
    (turboStat ops stats (Except.ok output) = Outcome.panic ↔
      (headerFields output).length < (valueFields output).length ∧
        ∀ j : Nat, j ≤ (headerFields output).length →
          ∃ (v : String) (f : F), (valueFields output)[j]? = some v ∧
            ops.parseFloat v = some f) := by
  obtain ⟨hp, hr⟩ := parseOutput_cases ops stats output h2
  have hpanic : parseOutput ops stats output = Outcome.panic ↔
      (headerFields output).length < (valueFields output).length ∧
        ∀ j : Nat, j ≤ (headerFields output).length →
          ∃ (v : String) (f : F), (valueFields output)[j]? = some v ∧
            ops.parseFloat v = some f := by
    rw [hp, fillResults_panic_iff ops _ _ 0 _ (Nat.zero_le _)]
    simp only [Nat.sub_zero]
  refine ⟨?_, hpanic⟩
  show ((∃ ret, parseOutput ops stats output = Outcome.ok ret) ∨
    (∃ e, parseOutput ops stats output = Outcome.error e)) ↔ _
  have hnot : ((∃ ret, parseOutput ops stats output = Outcome.ok ret) ∨
      (∃ e, parseOutput ops stats output = Outcome.error e)) ↔
      ¬ parseOutput ops stats output = Outcome.panic := by
    cases hres : parseOutput ops stats output with
    | ok r => simp
    | error e => simp
    | panic => simp
    | running => exact absurd hres hr
  rw [hnot, hpanic]
  constructor
  · intro hn
    by_cases hlen : (valueFields output).length ≤ (headerFields output).length
    · exact Or.inl hlen
    · right
      by_contra hc
      apply hn
      refine ⟨by omega, ?_⟩
      intro j hj
      have hjlt : j < (valueFields output).length := by omega
      refine ⟨(valueFields output)[j], ?_⟩
      cases hpf : ops.parseFloat (valueFields output)[j] with
      | none => exact absurd ⟨j, _, hj, List.getElem?_eq_getElem hjlt, hpf⟩ hc
      | some f => exact ⟨f, List.getElem?_eq_getElem hjlt, rfl⟩
  · rintro (hlen | ⟨j, v, hj, hv, hpf⟩) ⟨h1, hall⟩
    · omega
    · obtain ⟨v', f, hv', hf⟩ := hall j hj
      rw [hv] at hv'
      cases hv'
      rw [hpf] at hf
      cases hf

end

/-- C3, as stated, fails: for the output `A<tab>B`, `1` and the request `B`,
`turboStat` returns `[0]`, although a header field is `B` and no value field
stands under it. -/
theorem turboStat_short_value_line :
    ∃ ret, turboStat centiOps ["B"] (Except.ok "A\tB\n1") = Outcome.ok ret ∧
      ¬ ((∃ (j : Nat) (v : String) (f : Int), (headerFields "A\tB\n1")[j]? = some "B" ∧
            (valueFields "A\tB\n1")[j]? = some v ∧ centiOps.parseFloat v = some f ∧
            ret[0]? = some f) ∨
          ("B" ∉ headerFields "A\tB\n1" ∧ ret[0]? = some centiOps.zero)) := by
  refine ⟨[0], by decide, ?_⟩
  have hh : headerFields "A\tB\n1" = ["A", "B"] := by decide
  have hv : valueFields "A\tB\n1" = ["1"] := by decide
  rw [hh, hv]
  rintro (⟨j, v, f, h1, h2, _, _⟩ | ⟨h1, _⟩)
  · match j, h1, h2 with
    | 0, h1, _ => simp at h1
    | 1, _, h2 => simp at h2
    | j + 2, h1, _ => simp at h1
  · exact h1 (by decide)

/-- The amended C3 at a concrete output and at the same output with its two
columns exchanged. -/
theorem turboStat_requested_order_witness :
    turboStat centiOps ["PkgWatt", "PkgTmp"] (Except.ok "PkgTmp\tPkgWatt\n40\t10.5\n") =
        Outcome.ok [1050, 4000] ∧
      turboStat centiOps ["PkgWatt", "PkgTmp"] (Except.ok "PkgWatt\tPkgTmp\n10.5\t40\n") =
        Outcome.ok [1050, 4000] :=
  ⟨by decide,
    (turboStat_requested_order centiOps _ "PkgTmp\tPkgWatt\n40\t10.5\n" _ (by decide)).2.2
      (by decide) "PkgWatt\tPkgTmp\n10.5\t40\n" (by decide) (by decide) (by decide)⟩

/-- C4 at the output `A`, `1<tab>2<tab>x`: the value line has the field `x`, which
is not numeric, and `turboStat` does not return an error: the lookup `names[1]`
panics before `x` is reached. -/
theorem turboStat_panics_before_bad_field :
    "x" ∈ valueFields "A\n1\t2\tx" ∧ centiOps.parseFloat "x" = none ∧
      turboStat centiOps ["A"] (Except.ok "A\n1\t2\tx") = Outcome.panic := by
  decide

/-- C10 at the output `A<tab>B`, `1<tab>2<tab>3`: three value fields under two
header fields, all numeric, and the lookup goes out of range. -/
theorem turboStat_index_out_of_range_iff_witness :
    2 ≤ (stringsSplit "A\tB\n1\t2\t3" '\n').length ∧
      turboStat centiOps ["A"] (Except.ok "A\tB\n1\t2\t3") = Outcome.panic :=
  ⟨by decide,
    (turboStat_index_out_of_range_iff centiOps ["A"] "A\tB\n1\t2\t3" (by decide)).2.mpr
      ⟨by decide, fun j hj => by
        have hv : valueFields "A\tB\n1\t2\t3" = ["1", "2", "3"] := by decide
        have hh : (headerFields "A\tB\n1\t2\t3").length = 2 := by decide
        rw [hh] at hj
        rw [hv]
        match j, hj with
        | 0, _ => exact ⟨"1", 100, rfl, by decide⟩
        | 1, _ => exact ⟨"2", 200, rfl, by decide⟩
        | 2, _ => exact ⟨"3", 300, rfl, by decide⟩⟩⟩

/-! ## One load level -/

section
variable {F : Type} (ops : Float64Ops F)

theorem turboStat_ok_length (stats : List String) (run : Except Error String) (r : List F)
    (h : turboStat ops stats run = Outcome.ok r) : r.length = stats.length := by
  cases run with
  | error e => cases h
  | ok output =>
    have h' : parseOutput ops stats output = Outcome.ok r := h
    rw [(parseOutput_ok ops stats output r h').2.2.2, List.length_map]

theorem addInto_of_length_eq : ∀ (sums stats : List F), sums.length = stats.length →
    addInto ops sums stats = some (List.zipWith ops.add sums stats)
  | [], [], _ => rfl
  | [], _ :: _, h => by simp at h
  | _ :: _, [], h => by simp at h
  | s :: sums, v :: stats, h => by
    simp only [List.length_cons, Nat.add_right_cancel_iff] at h
    simp [addInto, addInto_of_length_eq sums stats h]

theorem colSums_length (m : Nat) (samples : Nat → List F) (n : Nat) :
    (colSums ops m samples n).length = m := by
  simp [colSums]

theorem colSums_zero (m : Nat) (samples : Nat → List F) :
    colSums ops m samples 0 = List.replicate m ops.zero := by
  apply List.ext_getElem
  · simp [colSums]
  · intro j h1 h2
    simp [colSums]

theorem colSums_succ (m : Nat) (samples : Nat → List F) (n : Nat)
    (hlen : (samples n).length = m) :
    List.zipWith ops.add (colSums ops m samples n) (samples n) = colSums ops m samples (n + 1) := by
  apply List.ext_getElem
  · simp [colSums, hlen]
  · intro j h1 h2
    have hj : j < (samples n).length := by
      simp only [List.length_zipWith] at h1
      omega
    simp only [colSums, List.getElem_zipWith, List.getElem_map, List.getElem_range,
      List.range_succ, List.map_append, List.map_cons, List.map_nil, List.foldl_append,
      List.foldl_cons, List.foldl_nil]
    congr 1
    rw [List.getD_eq_getElem _ _ hj]

/-- The measure loop when the process stays alive and `turbostat` parses: one
`sample` event per measure, and the sums of the columns at the end. -/
theorem sampleLoop_ok (env : LevelEnv) (metrics : List String) (load : Int)
    (samples : Nat → List F) :
    ∀ (n i : Nat),
      (∀ i', i ≤ i' → i' < i + n → env.goneBefore i' = false ∧
        turboStat ops metrics (env.turbo i') = Outcome.ok (samples i')) →
      sampleLoop ops env metrics load n i (colSums ops metrics.length samples i) =
        ((List.range' i n).map (Event.sample load),
          Outcome.ok (colSums ops metrics.length samples (i + n))) := by
  intro n
  induction n with
  | zero => intro i _; simp [sampleLoop]
  | succ n ih =>
    intro i h
    obtain ⟨hg, ht⟩ := h i (Nat.le_refl _) (by omega)
    have hlen := turboStat_ok_length ops _ _ _ ht
    unfold sampleLoop
    simp only [hg, ht, Bool.false_eq_true, if_false]
    rw [addInto_of_length_eq ops _ _ (by rw [colSums_length, hlen])]
    simp only
    rw [colSums_succ ops _ _ _ hlen, ih (i + 1) (fun i' h1 h2 => h i' (by omega) (by omega))]
    simp only [List.range'_succ, List.map_cons]
    congr 3
    omega

/-- The measure loop only emits `sample` and `gone` events. -/
theorem sampleLoop_events (env : LevelEnv) (metrics : List String) (load : Int) :
    ∀ (n i : Nat) (sums : List F) (e : Event),
      e ∈ (sampleLoop ops env metrics load n i sums).1 →
        e = Event.gone load ∨ ∃ i', e = Event.sample load i' := by
  intro n
  induction n with
  | zero => intro i sums e he; simp [sampleLoop] at he
  | succ n ih =>
    intro i sums e he
    unfold sampleLoop at he
    split at he
    · simp only [List.mem_singleton] at he
      exact Or.inl he
    · split at he
      · split at he
        · simp only [List.mem_singleton] at he
          exact Or.inr ⟨i, he⟩
        · simp only [List.mem_cons] at he
          rcases he with he | he
          · exact Or.inr ⟨i, he⟩
          · exact ih _ _ _ he
      all_goals
        simp only [List.mem_singleton] at he
        exact Or.inr ⟨i, he⟩

end
section
variable {F : Type} (ops : Float64Ops F)

theorem split_of_not_mem {α : Type} (x : α) :
    ∀ (t r pre post : List α), t ++ r = pre ++ x :: post → x ∉ t →
      ∃ pre₂, pre = t ++ pre₂ ∧ r = pre₂ ++ x :: post
  | [], r, pre, post, h, _ => ⟨pre, rfl, h⟩
  | a :: t, r, [], post, h, hx => by
    simp only [List.cons_append, List.nil_append, List.cons.injEq] at h
    exact absurd (h.1 ▸ List.mem_cons_self _ _) hx
  | a :: t, r, b :: pre, post, h, hx => by
    simp only [List.cons_append, List.cons.injEq] at h
    obtain ⟨pre₂, h1, h2⟩ := split_of_not_mem x t r pre post h.2
      (fun hm => hx (List.mem_cons_of_mem _ hm))
    exact ⟨pre₂, by rw [h.1, h1]; rfl, h2⟩

/-- A measure loop that ends well has seen no end of the load process. -/
theorem sampleLoop_ok_events (env : LevelEnv) (metrics : List String) (load : Int) :
    ∀ (n i : Nat) (sums sums' : List F),
      (sampleLoop ops env metrics load n i sums).2 = Outcome.ok sums' →
        (sampleLoop ops env metrics load n i sums).1 = (List.range' i n).map (Event.sample load) := by
  intro n
  induction n with
  | zero => intro i sums sums' _; simp [sampleLoop]
  | succ n ih =>
    intro i sums sums' h
    unfold sampleLoop at h ⊢
    split
    · rename_i hg; simp [hg] at h
    · rename_i hg
      simp only [hg] at h
      split
      · rename_i stats ht
        simp only [ht] at h
        split
        · rename_i ha; simp [ha] at h
        · rename_i s2 ha
          simp only [ha] at h
          simp only [List.range'_succ, List.map_cons]
          rw [ih _ _ _ h]
      · rename_i e ht; simp [ht] at h
      · rename_i ht; simp [ht] at h
      · rename_i ht; simp [ht] at h

/-- In the measure loop, the end of the load process is the last thing seen: the
loop returns `goneErr` at once, after measures only. -/
theorem sampleLoop_gone (env : LevelEnv) (metrics : List String) (load : Int) :
    ∀ (n i : Nat) (sums : List F) (pre post : List Event) (l : Int),
      (sampleLoop ops env metrics load n i sums).1 = pre ++ Event.gone l :: post →
        post = [] ∧ l = load ∧
        (sampleLoop ops env metrics load n i sums).2 = Outcome.error Error.gone ∧
        ∃ k, pre = (List.range' i k).map (Event.sample load) := by
  intro n
  induction n with
  | zero =>
    intro i sums pre post l h
    simp [sampleLoop] at h
  | succ n ih =>
    intro i sums pre post l h
    have single : ∀ (e : Event), (∀ l', e ≠ Event.gone l') →
        [e] = pre ++ Event.gone l :: post → False := by
      intro e he hh
      rcases List.cons_eq_append_iff.mp hh with ⟨_, h2⟩ | ⟨a', _, h2⟩
      · simp only [List.cons.injEq] at h2
        exact he l h2.1.symm
      · simp at h2
    unfold sampleLoop at h ⊢
    split at h
    · rename_i hg
      simp only [hg, if_true]
      rcases List.cons_eq_append_iff.mp h with ⟨h1, h2⟩ | ⟨a', _, h2⟩
      · simp only [List.cons.injEq, Event.gone.injEq] at h2
        refine ⟨h2.2, h2.1, ?_, 0, ?_⟩ <;> simp [h1]
      · simp at h2
    · rename_i hg
      simp only [hg]
      split at h
      · rename_i stats ht
        split at h
        · exact absurd h (fun hh => single _ (by simp) hh)
        · rename_i s2 ha
          simp only at h ⊢
          rcases List.cons_eq_append_iff.mp h with ⟨_, h2⟩ | ⟨a', h1, h2⟩
          · simp at h2
          · obtain ⟨hp, hl, hr, k, hk⟩ := ih _ _ _ _ _ h2
            refine ⟨hp, hl, ?_, k + 1, ?_⟩
            · simp only [Bool.false_eq_true, if_false]
              exact hr
            · rw [h1, hk]
              simp [List.range'_succ]
      all_goals exact absurd h (fun hh => single _ (by simp) hh)

end

section
variable {F : Type} (ops : Float64Ops F)

/-- A level at which nothing fails before the write. -/
theorem stressLevel_calm (env : LevelEnv) (input : benchInput) (name : String)
    (stressFn : Int → Int → List String) (load : Int) (samples : Nat → List F)
    (hs : env.spawnErr = none) (hg : env.goneInSettle = false)
    (hm : ∀ i, i < input.repeat_.toNat → env.goneBefore i = false ∧
      turboStat ops input.metrics (env.turbo i) = Outcome.ok (samples i))
    (he : env.exitCode = -1) :
    stressLevel ops env input name stressFn load =
      (levelBlock ops input name stressFn load input.repeat_.toNat
          (colSums ops input.metrics.length samples input.repeat_.toNat),
        match env.writeErr with
        | some e => Outcome.error e
        | none => Outcome.ok ()) := by
  have hloop := sampleLoop_ok ops env input.metrics load samples input.repeat_.toNat 0
    (fun i' _ h2 => hm i' (by omega))
  rw [colSums_zero, Nat.zero_add] at hloop
  unfold stressLevel
  simp only [hs, hg, hloop, he, Bool.false_eq_true, if_false, ne_eq, not_true_eq_false,
    write, levelBlock, List.range_eq_range']
  simp

/-- A level that returns no error ran to its row. -/
theorem stressLevel_ok (env : LevelEnv) (input : benchInput) (name : String)
    (stressFn : Int → Int → List String) (load : Int) (u : Unit)
    (h : (stressLevel ops env input name stressFn load).2 = Outcome.ok u) :
    ∃ sums, (stressLevel ops env input name stressFn load).1 =
      levelBlock ops input name stressFn load input.repeat_.toNat sums := by
  unfold stressLevel at h ⊢
  cases hs : env.spawnErr with
  | some e => simp [hs] at h
  | none =>
    cases hg : env.goneInSettle with
    | true => simp [hs, hg] at h
    | false =>
      rcases hloop : sampleLoop ops env input.metrics load input.repeat_.toNat 0
        (List.replicate input.metrics.length ops.zero) with ⟨t, r⟩
      simp only [hs, hg, hloop, Bool.false_eq_true, if_false] at h ⊢
      cases r with
      | ok sums =>
        have ht := sampleLoop_ok_events ops env input.metrics load _ _ _ sums
          (by rw [hloop])
        rw [hloop] at ht
        simp only at ht
        by_cases hec : env.exitCode = -1
        · refine ⟨sums, ?_⟩
          simp [hec, write, levelBlock, ht, List.range_eq_range']
        · simp [hec] at h
      | error e => simp at h
      | panic => simp at h
      | running => simp at h

/-- The teardown events of a level: none when the level fails before the kill;
the kill and the reaping when the exit code is not -1, and then the level returns
the error of a process not ended by a signal; the kill, the reaping with -1 and
the write of the row otherwise. -/
theorem stressLevel_teardown (env : LevelEnv) (input : benchInput) (name : String)
    (stressFn : Int → Int → List String) (load : Int) :
    (((stressLevel ops env input name stressFn load).1.filter Event.isTeardown = [] ∧
        ∀ u, (stressLevel ops env input name stressFn load).2 ≠ Outcome.ok u) ∨
      (∃ ec we, ec ≠ -1 ∧
        (stressLevel ops env input name stressFn load).1.filter Event.isTeardown =
          [Event.kill load, Event.reap load ec] ∧
        (stressLevel ops env input name stressFn load).2 =
          Outcome.error (Error.notSignalled ec we))) ∨
      ∃ sums, (stressLevel ops env input name stressFn load).1.filter Event.isTeardown =
        [Event.kill load, Event.reap load (-1),
          Event.write Sink.stdout (writeLine (rowData ops input name load sums))] := by
  have hfil : ∀ n i sums,
      (sampleLoop ops env input.metrics load n i sums).1.filter Event.isTeardown = [] := by
    intro n i sums
    rw [List.filter_eq_nil_iff]
    intro e he
    rcases sampleLoop_events ops env input.metrics load n i sums e he with h | ⟨i', h⟩ <;>
      simp [h, Event.isTeardown]
  unfold stressLevel
  simp only
  split
  · left; left
    simp [Event.isTeardown]
  · split
    · left; left
      simp [Event.isTeardown]
    · have hf := hfil input.repeat_.toNat 0 (List.replicate input.metrics.length ops.zero)
      split
      · rename_i t sums hloop
        rw [hloop] at hf
        simp only at hf
        split
        · rename_i hec
          left; right
          refine ⟨env.exitCode, env.waitErr, hec, ?_, rfl⟩
          simp [List.filter_cons, Event.isTeardown, hf]
        · rename_i hec
          simp only [ne_eq, Decidable.not_not] at hec
          right
          refine ⟨sums, ?_⟩
          simp [List.filter_cons, Event.isTeardown, hf, write, hec]
      all_goals
        rename_i hloop
        rw [hloop] at hf
        simp only at hf
        left; left
        simp [List.filter_cons, Event.isTeardown, hf]

/-- At a level, the end of the load process is the last thing seen: the level
returns `goneErr` at once, after the start and measures only. -/
theorem stressLevel_gone (env : LevelEnv) (input : benchInput) (name : String)
    (stressFn : Int → Int → List String) (load : Int) (pre post : List Event) (l : Int)
    (h : (stressLevel ops env input name stressFn load).1 = pre ++ Event.gone l :: post) :
    post = [] ∧ l = load ∧
      (stressLevel ops env input name stressFn load).2 = Outcome.error Error.gone ∧
      ∃ k, pre = Event.spawn load input.threads (stressFn load input.threads) ::
        (List.range k).map (Event.sample load) := by
  have tail : ∀ (t : List Event) (r : Outcome (List F)),
      sampleLoop ops env input.metrics load input.repeat_.toNat 0
        (List.replicate input.metrics.length ops.zero) = (t, r) →
      Event.spawn load input.threads (stressFn load input.threads) :: t =
        pre ++ Event.gone l :: post →
      post = [] ∧ l = load ∧ r = Outcome.error Error.gone ∧
        ∃ k, pre = Event.spawn load input.threads (stressFn load input.threads) ::
          (List.range k).map (Event.sample load) := by
    intro t r hloop hh
    rcases List.cons_eq_append_iff.mp hh with ⟨_, h2⟩ | ⟨a', h1, h2⟩
    · simp at h2
    · have hg := sampleLoop_gone ops env input.metrics load input.repeat_.toNat 0
        (List.replicate input.metrics.length ops.zero) a' post l (by rw [hloop]; exact h2)
      rw [hloop] at hg
      obtain ⟨hp, hl, hr, k, hk⟩ := hg
      exact ⟨hp, hl, hr, k, by rw [h1, hk, List.range_eq_range']⟩
  unfold stressLevel at h ⊢
  cases hs : env.spawnErr with
  | some e =>
    simp only [hs] at h
    rcases List.cons_eq_append_iff.mp h with ⟨_, h2⟩ | ⟨a', _, h2⟩ <;> simp at h2
  | none =>
    cases hg : env.goneInSettle with
    | true =>
      simp only [hs, hg, if_true] at h ⊢
      rcases List.cons_eq_append_iff.mp h with ⟨_, h2⟩ | ⟨a', h1, h2⟩
      · simp at h2
      · rcases List.cons_eq_append_iff.mp h2 with ⟨h3, h4⟩ | ⟨a'', _, h4⟩
        · simp only [List.cons.injEq, Event.gone.injEq] at h4
          exact ⟨h4.2, h4.1, trivial, 0, by simp [h1, h3]⟩
        · simp at h4
    | false =>
      rcases hloop : sampleLoop ops env input.metrics load input.repeat_.toNat 0
        (List.replicate input.metrics.length ops.zero) with ⟨t, r⟩
      simp only [hs, hg, hloop, Bool.false_eq_true, if_false] at h ⊢
      cases r with
      | ok sums =>
        exfalso
        have ht := sampleLoop_ok_events ops env input.metrics load _ _ _ sums
          (by rw [hloop])
        rw [hloop] at ht
        simp only at ht
        have hmem : Event.gone l ∈ pre ++ Event.gone l :: post := by simp
        rw [← h] at hmem
        by_cases hec : env.exitCode = -1 <;> simp [hec, write, ht] at hmem
      | error e =>
        obtain ⟨hp, hl, hr, hk⟩ := tail t _ hloop h
        exact ⟨hp, hl, by rw [hr], hk⟩
      | panic =>
        obtain ⟨_, _, hr, _⟩ := tail t _ hloop h
        cases hr
      | running =>
        obtain ⟨_, _, hr, _⟩ := tail t _ hloop h
        cases hr

end

/-! ## The loop over the load levels -/

section
variable {F : Type} (ops : Float64Ops F)

/-- One turn of the loop after a level that returned no error. -/
theorem stressLoop_succ_ok (w : Nat → LevelEnv) (input : benchInput) (name : String)
    (stressFn : Int → Int → List String) (fuel k : Nat) (load : Int) (u : Unit)
    (h : (stressLevel ops (w k) input name stressFn load).2 = Outcome.ok u) :
    stressLoop ops w input name stressFn (fuel + 1) k load =
      if load = 100 then ((stressLevel ops (w k) input name stressFn load).1, Outcome.ok ())
      else
        ((stressLevel ops (w k) input name stressFn load).1 ++
            (stressLoop ops w input name stressFn fuel (k + 1)
              (if wrapInt (load + input.loadStep) > 100 then 100
                else wrapInt (load + input.loadStep))).1,
          (stressLoop ops w input name stressFn fuel (k + 1)
              (if wrapInt (load + input.loadStep) > 100 then 100
                else wrapInt (load + input.loadStep))).2) := by
  rcases hl : stressLevel ops (w k) input name stressFn load with ⟨t, r⟩
  rw [hl] at h
  simp only at h
  subst h
  simp only [stressLoop, hl]

/-- One turn of the loop at a level that fails: the loop returns what the level returns. -/
theorem stressLoop_succ_fail (w : Nat → LevelEnv) (input : benchInput) (name : String)
    (stressFn : Int → Int → List String) (fuel k : Nat) (load : Int)
    (h : ∀ u, (stressLevel ops (w k) input name stressFn load).2 ≠ Outcome.ok u) :
    stressLoop ops w input name stressFn (fuel + 1) k load =
      stressLevel ops (w k) input name stressFn load := by
  rcases hl : stressLevel ops (w k) input name stressFn load with ⟨t, r⟩
  rw [hl] at h
  cases r with
  | ok u => exact absurd rfl (h u)
  | error e => simp only [stressLoop, hl]
  | panic => simp only [stressLoop, hl]
  | running => simp only [stressLoop, hl]

/-- The teardown events of the loop: one kill, reaping with -1 and row per level
that ran to its row, then at most one kill and reaping with another exit code. -/
theorem stressLoop_teardown (w : Nat → LevelEnv) (input : benchInput) (name : String)
    (stressFn : Int → Int → List String) :
    ∀ (fuel k : Nat) (load : Int),
      ∃ (done : List (Int × List F)) (tail : List Event),
        (stressLoop ops w input name stressFn fuel k load).1.filter Event.isTeardown =
          done.flatMap (fun p => [Event.kill p.1, Event.reap p.1 (-1),
            Event.write Sink.stdout (writeLine (rowData ops input name p.1 p.2))]) ++ tail ∧
        (tail = [] ∨ ∃ l ec we, ec ≠ -1 ∧ tail = [Event.kill l, Event.reap l ec] ∧
          (stressLoop ops w input name stressFn fuel k load).2 =
            Outcome.error (Error.notSignalled ec we)) := by
  intro fuel
  induction fuel with
  | zero =>
    intro k load
    exact ⟨[], [], by simp [stressLoop], Or.inl rfl⟩
  | succ fuel ih =>
    intro k load
    by_cases hok : ∃ u, (stressLevel ops (w k) input name stressFn load).2 = Outcome.ok u
    · obtain ⟨u, hu⟩ := hok
      rw [stressLoop_succ_ok ops w input name stressFn fuel k load u hu]
      have hrow : ∃ sums, (stressLevel ops (w k) input name stressFn load).1.filter
          Event.isTeardown = [Event.kill load, Event.reap load (-1),
            Event.write Sink.stdout (writeLine (rowData ops input name load sums))] := by
        obtain ⟨sums, hb⟩ := stressLevel_ok ops (w k) input name stressFn load u hu
        refine ⟨sums, ?_⟩
        rw [hb]
        simp [levelBlock, List.filter_cons, Event.isTeardown, List.filter_append,
          List.filter_map, Function.comp_def]
      obtain ⟨sums, hsums⟩ := hrow
      by_cases h100 : load = 100
      · simp only [h100, if_true]
        refine ⟨[(100, sums)], [], ?_, Or.inl rfl⟩
        rw [← h100, hsums]
        simp
      · simp only [h100, if_false]
        obtain ⟨done, tail, h1, h2⟩ := ih (k + 1)
          (if wrapInt (load + input.loadStep) > 100 then 100
            else wrapInt (load + input.loadStep))
        refine ⟨(load, sums) :: done, tail, ?_, h2⟩
        rw [List.filter_append, hsums, h1]
        simp
    · have hfail : ∀ u, (stressLevel ops (w k) input name stressFn load).2 ≠ Outcome.ok u :=
        fun u hu => hok ⟨u, hu⟩
      rw [stressLoop_succ_fail ops w input name stressFn fuel k load hfail]
      rcases stressLevel_teardown ops (w k) input name stressFn load with
        (⟨h1, _⟩ | ⟨ec, we, hec, h1, h2⟩) | ⟨sums, h1⟩
      · exact ⟨[], [], by simp [h1], Or.inl rfl⟩
      · exact ⟨[], _, by rw [h1]; simp, Or.inr ⟨load, ec, we, hec, rfl, h2⟩⟩
      · exact ⟨[(load, sums)], [], by rw [h1]; simp, Or.inl rfl⟩

/-- In the loop, the end of the load process is the last thing seen, and the
loop returns `goneErr`. -/
theorem stressLoop_gone (w : Nat → LevelEnv) (input : benchInput) (name : String)
    (stressFn : Int → Int → List String) :
    ∀ (fuel k : Nat) (load : Int) (pre post : List Event) (l : Int),
      (stressLoop ops w input name stressFn fuel k load).1 = pre ++ Event.gone l :: post →
        post = [] ∧
        (stressLoop ops w input name stressFn fuel k load).2 = Outcome.error Error.gone ∧
        ∃ pre' n, pre = pre' ++ Event.spawn l input.threads (stressFn l input.threads) ::
          (List.range n).map (Event.sample l) := by
  intro fuel
  induction fuel with
  | zero =>
    intro k load pre post l h
    simp [stressLoop] at h
  | succ fuel ih =>
    intro k load pre post l h
    by_cases hok : ∃ u, (stressLevel ops (w k) input name stressFn load).2 = Outcome.ok u
    · obtain ⟨u, hu⟩ := hok
      have hnot : Event.gone l ∉ (stressLevel ops (w k) input name stressFn load).1 := by
        intro hmem
        obtain ⟨s, t, hst⟩ := List.mem_iff_append.mp hmem
        have := (stressLevel_gone ops (w k) input name stressFn load s t l hst).2.2.1
        rw [hu] at this
        cases this
      rw [stressLoop_succ_ok ops w input name stressFn fuel k load u hu] at h ⊢
      by_cases h100 : load = 100
      · simp only [h100, if_true] at h
        exfalso
        apply hnot
        rw [h100, h]
        simp
      · simp only [h100, if_false] at h ⊢
        obtain ⟨pre₂, hp1, hp2⟩ := split_of_not_mem _ _ _ _ _ h hnot
        obtain ⟨hpost, hres, pre', n, hpre⟩ := ih _ _ _ _ _ hp2
        exact ⟨hpost, hres, (stressLevel ops (w k) input name stressFn load).1 ++ pre', n,
          by rw [hp1, hpre, List.append_assoc]⟩
    · have hfail : ∀ u, (stressLevel ops (w k) input name stressFn load).2 ≠ Outcome.ok u :=
        fun u hu => hok ⟨u, hu⟩
      rw [stressLoop_succ_fail ops w input name stressFn fuel k load hfail] at h ⊢
      obtain ⟨hpost, hl, hres, n, hpre⟩ := stressLevel_gone ops (w k) input name stressFn load
        pre post l h
      exact ⟨hpost, hres, [], n, by rw [hpre, hl]; rfl⟩

/-- The measure loop when the load process is seen to have ended before measure
`i0 + d`, after `d` good measures. -/
theorem sampleLoop_gone_at (env : LevelEnv) (metrics : List String) (load : Int)
    (samples : Nat → List F) :
    ∀ (d i0 n : Nat), d < n →
      (∀ i', i0 ≤ i' → i' < i0 + d → env.goneBefore i' = false ∧
        turboStat ops metrics (env.turbo i') = Outcome.ok (samples i')) →
      env.goneBefore (i0 + d) = true →
      sampleLoop ops env metrics load n i0 (colSums ops metrics.length samples i0) =
        ((List.range' i0 d).map (Event.sample load) ++ [Event.gone load],
          Outcome.error Error.gone) := by
  intro d
  induction d with
  | zero =>
    intro i0 n hn _ hg
    obtain ⟨n', rfl⟩ : ∃ n', n = n' + 1 := ⟨n - 1, by omega⟩
    simp only [Nat.add_zero] at hg
    simp [sampleLoop, hg]
  | succ d ih =>
    intro i0 n hn h hg
    obtain ⟨n', rfl⟩ : ∃ n', n = n' + 1 := ⟨n - 1, by omega⟩
    obtain ⟨hg0, ht⟩ := h i0 (Nat.le_refl _) (by omega)
    have hlen := turboStat_ok_length ops _ _ _ ht
    unfold sampleLoop
    simp only [hg0, ht, Bool.false_eq_true, if_false]
    rw [addInto_of_length_eq ops _ _ (by rw [colSums_length, hlen])]
    simp only
    rw [colSums_succ ops _ _ _ hlen, ih (i0 + 1) n' (by omega)
      (fun i' h1 h2 => h i' (by omega) (by omega)) (by rw [← hg]; congr 1; omega)]
    simp [List.range'_succ]

end

section
variable {F : Type} (ops : Float64Ops F)

/-- C7: in every run of `stress`, the kills, reapings and writes are, in order,
one group `kill, reap with exit code -1, write of the row` per level that ran to
its row, followed by nothing or by one `kill, reap` with an exit code other than
-1, in which case `stress` returns the error of a process not ended by a signal
and no row is written for that level. -/
theorem stress_rows_after_teardown (w : Nat → LevelEnv) (input : benchInput) (name : String)
    (stressFn : Int → Int → List String) (fuel : Nat) :
    ∃ (done : List (Int × List F)) (tail : List Event),
      (stress ops w input name stressFn fuel).1.filter Event.isTeardown =
        done.flatMap (fun p => [Event.kill p.1, Event.reap p.1 (-1),
          Event.write Sink.stdout (writeLine (rowData ops input name p.1 p.2))]) ++ tail ∧
      (tail = [] ∨ ∃ l ec we, ec ≠ -1 ∧ tail = [Event.kill l, Event.reap l ec] ∧
        (stress ops w input name stressFn fuel).2 = Outcome.error (Error.notSignalled ec we)) :=
  stressLoop_teardown ops w input name stressFn fuel 0 input.initialLoad

/-- C8: when the loop is entered at a level whose load process is seen to have
ended during the settle wait, or at the check before measure `i`, `stress`
returns `goneErr` right after that, with no later measure and no row for the
level; in every run the sight of the ended process is the last event, it comes
after the start of its level and measures only, and the run returns `goneErr`; a
phase whose process ends during its first settle wait writes no row. -/
theorem stress_premature_exit (w : Nat → LevelEnv) (input : benchInput) (name : String)
    (stressFn : Int → Int → List String) (fuel : Nat) :
    (∀ (k : Nat) (load : Int), (w k).spawnErr = none → (w k).goneInSettle = true →
      stressLoop ops w input name stressFn (fuel + 1) k load =
        ([Event.spawn load input.threads (stressFn load input.threads), Event.gone load],
          Outcome.error Error.gone)) ∧
    (∀ (k : Nat) (load : Int) (i : Nat) (samples : Nat → List F),
      (w k).spawnErr = none → (w k).goneInSettle = false → i < input.repeat_.toNat →
      (∀ i', i' < i → (w k).goneBefore i' = false ∧
        turboStat ops input.metrics ((w k).turbo i') = Outcome.ok (samples i')) →
      (w k).goneBefore i = true →
      stressLoop ops w input name stressFn (fuel + 1) k load =
        (Event.spawn load input.threads (stressFn load input.threads) ::
            (List.range i).map (Event.sample load) ++ [Event.gone load],
          Outcome.error Error.gone)) ∧
    (∀ (pre post : List Event) (l : Int),
      (stress ops w input name stressFn fuel).1 = pre ++ Event.gone l :: post →
        post = [] ∧ (stress ops w input name stressFn fuel).2 = Outcome.error Error.gone ∧
        ∃ pre' n, pre = pre' ++ Event.spawn l input.threads (stressFn l input.threads) ::
          (List.range n).map (Event.sample l)) ∧
    ((w 0).spawnErr = none → (w 0).goneInSettle = true →
      stress ops w input name stressFn (fuel + 1) =
          ([Event.spawn input.initialLoad input.threads
              (stressFn input.initialLoad input.threads), Event.gone input.initialLoad],
            Outcome.error Error.gone) ∧
        writes (stress ops w input name stressFn (fuel + 1)).1 = []) := by
  have settle : ∀ (k : Nat) (load : Int), (w k).spawnErr = none → (w k).goneInSettle = true →
      stressLoop ops w input name stressFn (fuel + 1) k load =
        ([Event.spawn load input.threads (stressFn load input.threads), Event.gone load],
          Outcome.error Error.gone) := by
    intro k load hs hg
    have hl : stressLevel ops (w k) input name stressFn load =
        ([Event.spawn load input.threads (stressFn load input.threads), Event.gone load],
          Outcome.error Error.gone) := by
      simp [stressLevel, hs, hg]
    rw [stressLoop_succ_fail ops w input name stressFn fuel k load (by rw [hl]; simp), hl]
  refine ⟨settle, ?_, ?_, ?_⟩
  · intro k load i samples hs hg hi hm hgone
    have hloop := sampleLoop_gone_at ops (w k) input.metrics load samples i 0
      input.repeat_.toNat hi (fun i' _ h2 => hm i' (by omega)) (by simpa using hgone)
    rw [colSums_zero] at hloop
    have hl : stressLevel ops (w k) input name stressFn load =
        (Event.spawn load input.threads (stressFn load input.threads) ::
            (List.range i).map (Event.sample load) ++ [Event.gone load],
          Outcome.error Error.gone) := by
      simp [stressLevel, hs, hg, hloop, List.range_eq_range']
    rw [stressLoop_succ_fail ops w input name stressFn fuel k load (by rw [hl]; simp), hl]
  · intro pre post l h
    exact stressLoop_gone ops w input name stressFn fuel 0 input.initialLoad pre post l h
  · intro hs hg
    have := settle 0 input.initialLoad hs hg
    refine ⟨this, ?_⟩
    show writes (stressLoop ops w input name stressFn (fuel + 1) 0 input.initialLoad).1 = []
    rw [this]
    rfl

end

/-- C8 at a phase whose load process ends during the first settle wait: one
start, the end seen, `goneErr`, no row. -/
theorem stress_premature_exit_witness :
    ((goneWorld 0).spawnErr = none ∧ (goneWorld 0).goneInSettle = true) ∧
      stress centiOps goneWorld sampleInput "ipsec" (fun _ t => stressNGIPSec t) 1 =
          ([Event.spawn 0 4 ["--ipsec-mb", "4"], Event.gone 0], Outcome.error Error.gone) ∧
        writes (stress centiOps goneWorld sampleInput "ipsec" (fun _ t => stressNGIPSec t) 1).1 =
          [] :=
  ⟨⟨rfl, rfl⟩,
    (stress_premature_exit centiOps goneWorld sampleInput "ipsec"
      (fun _ t => stressNGIPSec t) 0).2.2.2 rfl rfl⟩

/-- C6 at a run whose first call of `turboStat` fails: `stress` returns that
error with the load process started and never killed. -/
theorem stress_sample_error_leaves_process :
    stress centiOps failingSampler sampleInput "CPUStress"
        (fun l t => stressNGCPUStress l t "all") 5 =
      ([Event.spawn 0 4 ["-l", "0", "-c", "4", "--cpu-method", "all"], Event.sample 0 0],
        Outcome.error (Error.external "exit status 1")) := by
  decide

section
variable {F : Type} (ops : Float64Ops F)

theorem wrapInt_of_fits (x : Int) (h0 : 0 ≤ x) (h1 : x ≤ maxInt) : wrapInt x = x := by
  unfold wrapInt
  unfold maxInt at h1
  omega

theorem spawnLoads_samples (load : Int) (rest : List Event) :
    ∀ l : List Nat, spawnLoads (l.map (Event.sample load) ++ rest) = spawnLoads rest
  | [] => rfl
  | _ :: l => by
    simp only [List.map_cons, List.cons_append, spawnLoads]
    exact spawnLoads_samples load rest l

theorem writes_samples (load : Int) (rest : List Event) :
    ∀ l : List Nat, writes (l.map (Event.sample load) ++ rest) = writes rest
  | [] => rfl
  | _ :: l => by
    simp only [List.map_cons, List.cons_append, writes]
    exact writes_samples load rest l

theorem spawnLoads_append : ∀ (a b : List Event),
    spawnLoads (a ++ b) = spawnLoads a ++ spawnLoads b
  | [], _ => rfl
  | e :: a, b => by
    cases e <;> simp [spawnLoads, spawnLoads_append a b]

theorem writes_append : ∀ (a b : List Event), writes (a ++ b) = writes a ++ writes b
  | [], _ => rfl
  | e :: a, b => by
    cases e <;> simp [writes, writes_append a b]

theorem spawnLoads_levelBlock (input : benchInput) (name : String)
    (stressFn : Int → Int → List String) (load : Int) (n : Nat) (sums : List F) :
    spawnLoads (levelBlock ops input name stressFn load n sums) = [load] := by
  unfold levelBlock
  rw [List.cons_append]
  simp only [spawnLoads]
  rw [spawnLoads_samples]
  rfl

theorem writes_levelBlock (input : benchInput) (name : String)
    (stressFn : Int → Int → List String) (load : Int) (n : Nat) (sums : List F) :
    writes (levelBlock ops input name stressFn load n sums) =
      [Event.write Sink.stdout (writeLine (rowData ops input name load sums))] := by
  unfold levelBlock
  rw [List.cons_append]
  simp only [writes]
  rw [writes_samples]
  rfl

/-- A calm level runs to its row and returns no error. -/
theorem stressLevel_of_calm (env : LevelEnv) (input : benchInput) (name : String)
    (stressFn : Int → Int → List String) (load : Int) (hc : Calm ops env input) :
    ∃ sums, stressLevel ops env input name stressFn load =
      (levelBlock ops input name stressFn load input.repeat_.toNat sums, Outcome.ok ()) := by
  obtain ⟨hs, hg, hm, he, hw⟩ := hc
  refine ⟨colSums ops input.metrics.length
    (fun i => match turboStat ops input.metrics (env.turbo i) with
      | Outcome.ok r => r
      | _ => []) input.repeat_.toNat, ?_⟩
  rw [stressLevel_calm ops env input name stressFn load _ hs hg ?_ he, hw]
  intro i hi
  obtain ⟨hg', r, hr⟩ := hm i hi
  exact ⟨hg', by rw [hr]⟩

/-- Once the loop has returned, more fuel changes nothing. -/
theorem stressLoop_mono (w : Nat → LevelEnv) (input : benchInput) (name : String)
    (stressFn : Int → Int → List String) :
    ∀ (n k : Nat) (load : Int),
      (stressLoop ops w input name stressFn n k load).2 ≠ Outcome.running →
      ∀ m, n ≤ m → stressLoop ops w input name stressFn m k load =
        stressLoop ops w input name stressFn n k load := by
  intro n
  induction n with
  | zero => intro k load h; simp [stressLoop] at h
  | succ n ih =>
    intro k load h m hm
    obtain ⟨m', rfl⟩ : ∃ m', m = m' + 1 := ⟨m - 1, by omega⟩
    by_cases hok : ∃ u, (stressLevel ops (w k) input name stressFn load).2 = Outcome.ok u
    · obtain ⟨u, hu⟩ := hok
      rw [stressLoop_succ_ok ops w input name stressFn _ k load u hu] at h ⊢
      rw [stressLoop_succ_ok ops w input name stressFn _ k load u hu]
      by_cases h100 : load = 100
      · simp only [h100, if_true]
      · simp only [h100, if_false] at h ⊢
        rw [ih _ _ h m' (by omega)]
    · have hfail : ∀ u, (stressLevel ops (w k) input name stressFn load).2 ≠ Outcome.ok u :=
        fun u hu => hok ⟨u, hu⟩
      rw [stressLoop_succ_fail ops w input name stressFn _ k load hfail,
        stressLoop_succ_fail ops w input name stressFn _ k load hfail]

/-- The ramp of a calm run: from `load`, with enough fuel, the loop returns no
error and visits a strictly increasing list of levels that steps by `loadStep`,
is capped at 100 and ends there, with one row per level. -/
theorem stressLoop_ramp (w : Nat → LevelEnv) (input : benchInput) (name : String)
    (stressFn : Int → Int → List String) (hcalm : ∀ k, Calm ops (w k) input)
    (hstep : 1 ≤ input.loadStep) :
    ∀ (n k : Nat) (load : Int), 0 ≤ load → load ≤ 100 →
      (load = 100 ∨ load + input.loadStep ≤ maxInt) → (100 - load).toNat < n →
      (stressLoop ops w input name stressFn n k load).2 = Outcome.ok () ∧
      ∃ (L : List Int) (rows : List (List F)),
        spawnLoads (stressLoop ops w input name stressFn n k load).1 = load :: L ∧
        writes (stressLoop ops w input name stressFn n k load).1 =
          List.zipWith (fun l s => Event.write Sink.stdout
            (writeLine (rowData ops input name l s))) (load :: L) rows ∧
        rows.length = (load :: L).length ∧
        List.Chain' (fun a b => a < b ∧ b = min (a + input.loadStep) 100) (load :: L) ∧
        (load :: L).getLast? = some 100 ∧ (load :: L).count 100 = 1 := by
  intro n
  induction n with
  | zero => intro k load _ _ _ hn; omega
  | succ n ih =>
    intro k load h0 h100 hfit hn
    obtain ⟨sums, hl⟩ := stressLevel_of_calm ops (w k) input name stressFn load (hcalm k)
    rw [stressLoop_succ_ok ops w input name stressFn n k load () (by rw [hl])]
    by_cases hl100 : load = 100
    · simp only [hl100, if_true]
      rw [← hl100, hl]
      refine ⟨trivial, [], [sums], spawnLoads_levelBlock ops _ _ _ _ _ _, ?_, rfl, ?_, ?_, ?_⟩
      · rw [writes_levelBlock]; rfl
      · exact List.chain'_singleton _
      · rw [hl100]; rfl
      · rw [hl100]; rfl
    · simp only [hl100, if_false]
      have hfit' : load + input.loadStep ≤ maxInt := by
        rcases hfit with h | h
        · exact absurd h hl100
        · exact h
      have hw : wrapInt (load + input.loadStep) = load + input.loadStep :=
        wrapInt_of_fits _ (by omega) hfit'
      have hnext : (if wrapInt (load + input.loadStep) > 100 then 100
          else wrapInt (load + input.loadStep)) = min (load + input.loadStep) 100 := by
        rw [hw]
        split <;> omega
      rw [hnext]
      have hmax : (200 : Int) ≤ maxInt := by unfold maxInt; norm_num
      obtain ⟨hres, L, rows, hsp, hwr, hlen, hch, hlast, hcnt⟩ :=
        ih (k + 1) (min (load + input.loadStep) 100) (by omega) (by omega) (by omega) (by omega)
      refine ⟨hres, min (load + input.loadStep) 100 :: L, sums :: rows, ?_, ?_, ?_, ?_, ?_, ?_⟩
      · rw [spawnLoads_append, hl, spawnLoads_levelBlock, hsp]; rfl
      · rw [writes_append, hl, writes_levelBlock, hwr]; rfl
      · simp only [List.length_cons] at hlen ⊢
        omega
      · exact List.chain'_cons.mpr ⟨⟨by omega, rfl⟩, hch⟩
      · rw [List.getLast?_cons_cons, hlast]
      · rw [List.count_cons_of_ne (Ne.symm hl100), hcnt]

end

theorem ramp_by_50 (L : List Int)
    (hch : List.Chain' (fun a b : Int => a < b ∧ b = min (a + 50) 100) (0 :: L))
    (hlast : (0 :: L).getLast? = some 100) : 0 :: L = [0, 50, 100] := by
  match L, hch, hlast with
  | [], _, hlast => simp at hlast
  | [b], hch, hlast =>
    simp only [List.chain'_cons, List.chain'_singleton, and_true] at hch
    simp at hlast
    omega
  | [b, c], hch, _ =>
    simp only [List.chain'_cons, List.chain'_singleton, and_true] at hch
    obtain ⟨⟨_, hb⟩, ⟨_, hc⟩⟩ := hch
    have hb' : b = 50 := by omega
    subst hb'
    have hc' : c = 100 := by omega
    subst hc'
    rfl
  | b :: c :: d :: L', hch, _ =>
    simp only [List.chain'_cons] at hch
    obtain ⟨⟨_, hb⟩, ⟨_, hc⟩, ⟨hd1, hd2⟩, _⟩ := hch
    omega

theorem ramp_by_100 (step : Int) (hstep : 100 ≤ step) (L : List Int)
    (hch : List.Chain' (fun a b : Int => a < b ∧ b = min (a + step) 100) (0 :: L))
    (hlast : (0 :: L).getLast? = some 100) : 0 :: L = [0, 100] := by
  match L, hch, hlast with
  | [], _, hlast => simp at hlast
  | [b], hch, _ =>
    simp only [List.chain'_cons, List.chain'_singleton, and_true] at hch
    obtain ⟨_, hb⟩ := hch
    have hb' : b = 100 := by omega
    subst hb'
    rfl
  | b :: c :: L', hch, _ =>
    simp only [List.chain'_cons] at hch
    obtain ⟨⟨_, hb⟩, ⟨hc1, hc2⟩, _⟩ := hch
    omega

section
variable {F : Type} (ops : Float64Ops F)

/-- C1, as amended: for a step of 1 or more and a start from 0 to 100 such that
the start is 100 or start + step is at most the largest `int`, a run of `stress`
in which nothing fails returns (any fuel from 101 on gives the same run); the
levels at which it starts `stress-ng` are also the levels of the rows it writes,
one row per level in the same order; the list begins with the start, is strictly
increasing, each later level is min(previous + step, 100), and it ends with 100,
which occurs once.  A step of 50 from 0 gives [0, 50, 100], a step of 100 or
more from 0 gives [0, 100]. -/
theorem stress_ramp (w : Nat → LevelEnv) (input : benchInput) (name : String)
    (stressFn : Int → Int → List String) (hcalm : ∀ k, Calm ops (w k) input)
    (hstep : 1 ≤ input.loadStep) (h0 : 0 ≤ input.initialLoad) (h100 : input.initialLoad ≤ 100)
    (hfit : input.initialLoad = 100 ∨ input.initialLoad + input.loadStep ≤ maxInt) :
    ∃ (levels : List Int) (rows : List (List F)),
      (∀ fuel, 101 ≤ fuel →
        (stress ops w input name stressFn fuel).2 = Outcome.ok () ∧
        spawnLoads (stress ops w input name stressFn fuel).1 = levels ∧
        writes (stress ops w input name stressFn fuel).1 =
          List.zipWith (fun l s => Event.write Sink.stdout
            (writeLine (rowData ops input name l s))) levels rows) ∧
      rows.length = levels.length ∧
      levels.head? = some input.initialLoad ∧
      List.Chain' (fun a b => a < b ∧ b = min (a + input.loadStep) 100) levels ∧
      levels.getLast? = some 100 ∧ levels.count 100 = 1 ∧
      (input.initialLoad = 0 → input.loadStep = 50 → levels = [0, 50, 100]) ∧
      (input.initialLoad = 0 → 100 ≤ input.loadStep → levels = [0, 100]) := by
  obtain ⟨hres, L, rows, hsp, hwr, hlen, hch, hlast, hcnt⟩ :=
    stressLoop_ramp ops w input name stressFn hcalm hstep 101 0 input.initialLoad h0 h100 hfit
      (by omega)
  refine ⟨input.initialLoad :: L, rows, ?_, hlen, rfl, hch, hlast, hcnt, ?_, ?_⟩
  · intro fuel hfuel
    have hm := stressLoop_mono ops w input name stressFn 101 0 input.initialLoad
      (by rw [hres]; simp) fuel hfuel
    unfold stress
    rw [hm]
    exact ⟨hres, hsp, hwr⟩
  · intro hi hs
    rw [hi, hs] at hch
    rw [hi] at hlast ⊢
    exact ramp_by_50 L hch hlast
  · intro hi hs
    rw [hi] at hch hlast ⊢
    exact ramp_by_100 input.loadStep hs L hch hlast

/-- C5: when the loop is entered at a level where `stress-ng` starts and stays
alive, the `N` calls of `turboStat` return the lists `samples 0 .. samples (N-1)`
and the kill ends the process by a signal, each of these lists has
`len(metrics)` entries and the row written for the level is the test name, the
threads and the level followed by `len(metrics)` fields, the `j`-th of which is
`FormatFloat` with 2 decimals of the sum `0 + samples 0 [j] + ... + samples (N-1) [j]`
divided by `float64(N)`. -/
theorem stress_row_mean (w : Nat → LevelEnv) (input : benchInput) (name : String)
    (stressFn : Int → Int → List String) (fuel k : Nat) (load : Int) (N : Nat)
    (samples : Nat → List F) (hN : 1 ≤ N) (hrep : input.repeat_ = N)
    (hs : (w k).spawnErr = none) (hg : (w k).goneInSettle = false)
    (hm : ∀ i, i < N → (w k).goneBefore i = false ∧
      turboStat ops input.metrics ((w k).turbo i) = Outcome.ok (samples i))
    (he : (w k).exitCode = -1) :
    (∀ i, i < N → (samples i).length = input.metrics.length) ∧
    ∃ rest, (stressLoop ops w input name stressFn (fuel + 1) k load).1 =
      Event.spawn load input.threads (stressFn load input.threads) ::
        (List.range N).map (Event.sample load) ++
          [Event.kill load, Event.reap load (-1),
            Event.write Sink.stdout (writeLine ([name, sprintInt input.threads, sprintInt load] ++
              (List.range input.metrics.length).map (fun j =>
                ops.formatFloat (ops.div
                  (((List.range N).map (fun i => (samples i).getD j ops.zero)).foldl
                    ops.add ops.zero)
                  (ops.ofInt N)))))] ++ rest := by
  have hNat : input.repeat_.toNat = N := by rw [hrep]; exact Int.toNat_natCast N
  have _ := hN
  refine ⟨fun i hi => turboStat_ok_length ops _ _ _ (hm i hi).2, ?_⟩
  have hl := stressLevel_calm ops (w k) input name stressFn load samples hs hg
    (by rw [hNat]; exact hm) he
  have hblock : levelBlock ops input name stressFn load input.repeat_.toNat
      (colSums ops input.metrics.length samples input.repeat_.toNat) =
      Event.spawn load input.threads (stressFn load input.threads) ::
        (List.range N).map (Event.sample load) ++
          [Event.kill load, Event.reap load (-1),
            Event.write Sink.stdout (writeLine ([name, sprintInt input.threads, sprintInt load] ++
              (List.range input.metrics.length).map (fun j =>
                ops.formatFloat (ops.div
                  (((List.range N).map (fun i => (samples i).getD j ops.zero)).foldl
                    ops.add ops.zero)
                  (ops.ofInt N)))))] := by
    rw [hNat]
    simp only [levelBlock, rowData, colSums, hrep, List.map_map, Function.comp_def]
  rw [hblock] at hl
  cases hwe : (w k).writeErr with
  | some e =>
    rw [hwe] at hl
    rw [stressLoop_succ_fail ops w input name stressFn fuel k load (by rw [hl]; simp), hl]
    exact ⟨[], by simp⟩
  | none =>
    rw [hwe] at hl
    rw [stressLoop_succ_ok ops w input name stressFn fuel k load () (by rw [hl]), hl]
    by_cases h100 : load = 100
    · simp only [h100, if_true]
      exact ⟨[], by simp⟩
    · simp only [h100, if_false]
      exact ⟨_, rfl⟩

end

theorem calmPhase_calm (input : benchInput) (hm : input.metrics = ["PkgWatt", "PkgTmp"]) :
    ∀ k, Calm centiOps (calmPhase k) input := by
  intro k
  refine ⟨rfl, rfl, fun i _ => ⟨rfl, [3000, 5000], ?_⟩, rfl, rfl⟩
  rw [hm]
  show turboStat centiOps ["PkgWatt", "PkgTmp"] (Except.ok "PkgWatt\tPkgTmp\n30\t50\n") =
    Outcome.ok [3000, 5000]
  decide

/-- C1, as stated, fails: from 1 with a step of 2^63 - 1 a run in which nothing
fails returns after the levels 1, -2^63, -1, 100, which are not increasing: the
addition `load += input.loadStep` wraps around. -/
theorem wrapping_ramp_not_increasing :
    (∀ k, Calm centiOps (calmPhase k) wrappingInput) ∧
      1 ≤ wrappingInput.loadStep ∧ 0 ≤ wrappingInput.initialLoad ∧
      wrappingInput.initialLoad ≤ 100 ∧
      (stress centiOps calmPhase wrappingInput "CPUStress"
        (fun l t => stressNGCPUStress l t "all") 101).2 = Outcome.ok () ∧
      spawnLoads (stress centiOps calmPhase wrappingInput "CPUStress"
        (fun l t => stressNGCPUStress l t "all") 101).1 = [1, -9223372036854775808, -1, 100] ∧
      ¬ List.Chain' (fun a b : Int => a < b) [1, -9223372036854775808, -1, 100] := by
  refine ⟨calmPhase_calm wrappingInput rfl, by decide, by decide, by decide, ?_, ?_, ?_⟩
  · decide
  · decide
  · intro h
    exact absurd (List.chain'_cons.mp h).1 (by decide)

/-- The amended C1 at the ramp of the default step 50 from 0: the levels are 0, 50, 100. -/
theorem stress_ramp_witness :
    (∀ k, Calm centiOps (calmPhase k) sampleInput) ∧
      ∃ levels : List Int, levels = [0, 50, 100] ∧ ∀ fuel, 101 ≤ fuel →
        (stress centiOps calmPhase sampleInput "CPUStress"
          (fun l t => stressNGCPUStress l t "all") fuel).2 = Outcome.ok () ∧
        spawnLoads (stress centiOps calmPhase sampleInput "CPUStress"
          (fun l t => stressNGCPUStress l t "all") fuel).1 = levels := by
  refine ⟨calmPhase_calm sampleInput rfl, ?_⟩
  obtain ⟨levels, rows, hrun, _, _, _, _, _, h50, _⟩ :=
    stress_ramp centiOps calmPhase sampleInput "CPUStress"
      (fun l t => stressNGCPUStress l t "all") (calmPhase_calm sampleInput rfl)
      (by decide) (by decide) (by decide) (Or.inr (by decide))
  exact ⟨levels, h50 rfl rfl, fun fuel hf => ⟨(hrun fuel hf).1, (hrun fuel hf).2.1⟩⟩

/-- C5 at three measures 10.0, 20.0, 30.0 of one metric: the row ends with 20.00. -/
theorem stress_row_mean_witness :
    (1 ≤ 3 ∧ meanInput.repeat_ = (3 : Nat) ∧ (meanPhase 0).spawnErr = none ∧
        (meanPhase 0).goneInSettle = false ∧ (meanPhase 0).exitCode = -1 ∧
        turboStat centiOps meanInput.metrics ((meanPhase 0).turbo 0) = Outcome.ok [1000] ∧
        turboStat centiOps meanInput.metrics ((meanPhase 0).turbo 1) = Outcome.ok [2000] ∧
        turboStat centiOps meanInput.metrics ((meanPhase 0).turbo 2) = Outcome.ok [3000]) ∧
      ∃ rest, (stressLoop centiOps meanPhase meanInput "CPUStress"
          (fun l t => stressNGCPUStress l t "all") 1 0 100).1 =
        [Event.spawn 100 4 ["-l", "100", "-c", "4", "--cpu-method", "all"],
          Event.sample 100 0, Event.sample 100 1, Event.sample 100 2,
          Event.kill 100, Event.reap 100 (-1),
          Event.write Sink.stdout "CPUStress,4,100,20.00\n"] ++ rest := by
  refine ⟨by decide, ?_⟩
  obtain ⟨rest, h⟩ := (stress_row_mean centiOps meanPhase meanInput "CPUStress"
    (fun l t => stressNGCPUStress l t "all") 0 0 100 3
    (fun i => if i = 0 then [1000] else if i = 1 then [2000] else [3000])
    (by decide) (by decide) rfl rfl
    (fun i hi => by
      match i, hi with
      | 0, _ => exact ⟨rfl, by decide⟩
      | 1, _ => exact ⟨rfl, by decide⟩
      | 2, _ => exact ⟨rfl, by decide⟩) rfl).2
  refine ⟨rest, ?_⟩
  rw [h]
  rfl

/-! ## bench -/

theorem intercalate_go (s : String) : ∀ (as : List String) (acc : String),
    String.intercalate.go acc s as = acc ++ String.join (as.map (fun a => s ++ a)) := by
  intro as
  induction as with
  | nil =>
    intro acc
    apply String.ext
    simp [String.intercalate.go]
  | cons a as ih =>
    intro acc
    apply String.ext
    simp [String.intercalate.go, ih, List.append_assoc]

/-- The header line: the three fixed names, then a comma and a name per metric, then a newline. -/
theorem header_line (metrics : List String) :
    writeLine (["test", "threads", "load"] ++ metrics) =
      "test,threads,load" ++ String.join (metrics.map (fun m => "," ++ m)) ++ "\n" := by
  have : String.intercalate "," (["test", "threads", "load"] ++ metrics) =
      String.intercalate.go ("test" ++ "," ++ "threads" ++ "," ++ "load") "," metrics := rfl
  rw [writeLine, this, intercalate_go]
  rfl

/-- A step followed by the rest of the run, as in each `if err != nil { return err }` of `bench`. -/
theorem runInOrder_cons (p : List Event × Outcome Unit) (ps : List (List Event × Outcome Unit)) :
    runInOrder (p :: ps) =
      match p with
      | (t, Outcome.ok _) => (t ++ (runInOrder ps).1, (runInOrder ps).2)
      | (t, r) => (t, r) := by
  rcases p with ⟨t, r⟩
  cases r <;> rfl

section
variable {F : Type} (ops : Float64Ops F)

theorem benchMaximize_eq (w : World) (input : benchInput) (fuel : Nat) :
    benchMaximize ops w input fuel =
      runInOrder (if input.maximize then [maximizeStress ops w.maximize input fuel] else []) := by
  unfold benchMaximize
  split
  · rw [runInOrder_cons]
    rcases maximizeStress ops w.maximize input fuel with ⟨t, r⟩
    cases r <;> simp [runInOrder]
  · rfl

theorem benchVM_eq (w : World) (input : benchInput) (fuel : Nat) :
    benchVM ops w input fuel =
      runInOrder ((if input.vm then [vmStress ops w.vm input fuel] else []) ++
        (if input.maximize then [maximizeStress ops w.maximize input fuel] else [])) := by
  unfold benchVM
  split
  · simp only [List.singleton_append]
    rw [runInOrder_cons, benchMaximize_eq]
  · simp only [List.nil_append]
    exact benchMaximize_eq ops w input fuel

theorem benchIPSec_eq (w : World) (input : benchInput) (fuel : Nat) :
    benchIPSec ops w input fuel =
      runInOrder ((if input.ipsec then
          [ipsecStress ops w.ipsec { input with initialLoad := 100 } fuel] else []) ++
        (if input.vm then [vmStress ops w.vm
          (if input.ipsec then { input with initialLoad := 100 } else input) fuel] else []) ++
        (if input.maximize then [maximizeStress ops w.maximize
          (if input.ipsec then { input with initialLoad := 100 } else input) fuel] else [])) := by
  unfold benchIPSec
  split
  · rename_i hi
    simp only [if_pos hi, List.singleton_append, List.cons_append]
    rw [runInOrder_cons, benchVM_eq]
    rfl
  · rename_i hi
    simp only [if_neg hi, List.nil_append]
    exact benchVM_eq ops w input fuel

/-- C9: `bench` is the run, in this order, of the write of the header line
`test,threads,load,<metric1>,<metric2>,...` with one newline, of CPUStress, of
ipsec if enabled, of VMStress if enabled and of maximize if enabled, where the
first step that returns an error ends the run with that error and no later step
starts; in particular an error of the header write, or of CPUStress, is the
error `bench` returns, with no event of a later step. -/
theorem bench_order (w : World) (input : benchInput) (fuel : Nat) :
    bench ops w input fuel =
      runInOrder ([write (["test", "threads", "load"] ++ input.metrics) Sink.output w.headerErr,
          cpuStress ops w.cpu input fuel] ++
        (if input.ipsec then
          [ipsecStress ops w.ipsec { input with initialLoad := 100 } fuel] else []) ++
        (if input.vm then [vmStress ops w.vm
          (if input.ipsec then { input with initialLoad := 100 } else input) fuel] else []) ++
        (if input.maximize then [maximizeStress ops w.maximize
          (if input.ipsec then { input with initialLoad := 100 } else input) fuel] else [])) ∧
    (write (["test", "threads", "load"] ++ input.metrics) Sink.output w.headerErr).1 =
      [Event.write Sink.output
        ("test,threads,load" ++ String.join (input.metrics.map (fun m => "," ++ m)) ++ "\n")] ∧
    (∀ e, w.headerErr = some e →
      bench ops w input fuel =
        ([Event.write Sink.output
          ("test,threads,load" ++ String.join (input.metrics.map (fun m => "," ++ m)) ++ "\n")],
          Outcome.error e)) ∧
    (∀ e, w.headerErr = none → (cpuStress ops w.cpu input fuel).2 = Outcome.error e →
      bench ops w input fuel =
        (Event.write Sink.output
            ("test,threads,load" ++ String.join (input.metrics.map (fun m => "," ++ m)) ++ "\n") ::
          (cpuStress ops w.cpu input fuel).1, Outcome.error e)) := by
  have hmain : bench ops w input fuel =
      runInOrder ([write (["test", "threads", "load"] ++ input.metrics) Sink.output w.headerErr,
          cpuStress ops w.cpu input fuel] ++
        (if input.ipsec then
          [ipsecStress ops w.ipsec { input with initialLoad := 100 } fuel] else []) ++
        (if input.vm then [vmStress ops w.vm
          (if input.ipsec then { input with initialLoad := 100 } else input) fuel] else []) ++
        (if input.maximize then [maximizeStress ops w.maximize
          (if input.ipsec then { input with initialLoad := 100 } else input) fuel] else [])) := by
    unfold bench
    simp only [List.cons_append, List.nil_append]
    rw [runInOrder_cons, runInOrder_cons, ← benchIPSec_eq]
    rcases write ("test" :: "threads" :: "load" :: input.metrics) Sink.output w.headerErr
      with ⟨t0, r0⟩
    cases r0 with
    | ok u =>
      rcases cpuStress ops w.cpu input fuel with ⟨t1, r1⟩
      cases r1 <;> simp [List.append_assoc]
    | error e => rfl
    | panic => rfl
    | running => rfl
  have hhead : (write (["test", "threads", "load"] ++ input.metrics) Sink.output w.headerErr).1 =
      [Event.write Sink.output
        ("test,threads,load" ++ String.join (input.metrics.map (fun m => "," ++ m)) ++ "\n")] := by
    simp only [write]
    rw [header_line]
  refine ⟨hmain, hhead, ?_, ?_⟩
  · intro e he
    unfold bench
    simp only [write, he]
    rw [header_line]
  · intro e he hcpu
    unfold bench
    rcases hc : cpuStress ops w.cpu input fuel with ⟨t1, r1⟩
    rw [hc] at hcpu
    simp only at hcpu
    subst hcpu
    simp only [write, he]
    rw [header_line]
    rfl

end

/-- C2 at a configuration without the ipsec phase, with the VM phase and a step
of 50: the VMStress phase starts at level 0, not 100, visits 0, 50 and 100 and
writes three rows. -/
theorem bench_vm_ramps_without_ipsec :
    (bench centiOps (calmWorld "PkgWatt\tPkgTmp\n30\t50\n") noIPSecInput 101).2 = Outcome.ok () ∧
      spawnLoads (vmStress centiOps (calmWorld "PkgWatt\tPkgTmp\n30\t50\n").vm noIPSecInput 101).1 =
        [0, 50, 100] ∧
      writes (bench centiOps (calmWorld "PkgWatt\tPkgTmp\n30\t50\n") noIPSecInput 101).1 =
        [Event.write Sink.output "test,threads,load,PkgWatt,PkgTmp\n",
          Event.write Sink.stdout "CPUStress,4,0,30.00,50.00\n",
          Event.write Sink.stdout "CPUStress,4,50,30.00,50.00\n",
          Event.write Sink.stdout "CPUStress,4,100,30.00,50.00\n",
          Event.write Sink.stdout "VMStress,4,0,30.00,50.00\n",
          Event.write Sink.stdout "VMStress,4,50,30.00,50.00\n",
          Event.write Sink.stdout "VMStress,4,100,30.00,50.00\n"] := by
  refine ⟨?_, ?_, ?_⟩ <;> decide

end Turbostress
